import Mathlib

/-!
Verification development for the RiverLakeNetwork repository.

This file gives a shallow embedding, in Lean 4, of the graph-algorithm core of
the repository:

* `Utility.compute_uparea` (src/riverlakenetwork/utility.py): sentinel-aware
  topological (Kahn) accumulation of upstream contributing area;
* `Utility.add_immediate_upstream`: the reverse-adjacency (upstream list) builder;
* `NetworkTopologyCorrection` (src/riverlakenetwork/network_correction.py):
  lake sorting and identifier assignment, per-lake inflow/outflow rewiring,
  geometry shrink corrections (with the geometry engine's outputs passed in as
  explicit parameters, since the engine is an external collaborator), and the
  full `_riv_topology_correction` pipeline;
* `OutputChecker._check_graph` (src/riverlakenetwork/output_checker.py).

Pandas tables are modelled as lists of records; nullable columns as `Option`;
floats as `Rat` (the algorithms use only comparison, +, *, /, clipping);
Python dict construction from column zips keeps its last-wins semantics.
-/

namespace RiverLakeNetwork

/-- A row of the river table as consumed by `Utility.compute_uparea`:
`COMID`, raw `NextDownCOMID` (`none` models a null entry), and the
`unitarea` seed column (`none` models NaN). -/
structure URow where
  comid : Int
  nextDown : Option Int
  unitarea : Option Rat
  deriving Repr, DecidableEq

/-- Deduplication of a key list (keeps the last occurrence of each key, the
way a Python dict built from the column does). -/
def dedupKeys : List Int → List Int
  | [] => []
  | x :: xs => if xs.contains x then dedupKeys xs else x :: dedupKeys xs

/-- `set(df[comid_col])` — the node set, as the deduplicated list of COMIDs. -/
def comids (rows : List URow) : List Int :=
  dedupKeys (rows.map (fun r => r.comid))

/-- `dict(zip(keys, vals))[k]`: Python dict lookup, where a later pair with the
same key overrides an earlier one. -/
def dictLookup {α : Type} (pairs : List (Int × α)) (k : Int) : Option α :=
  (pairs.reverse.find? (fun p => p.1 == k)).map (fun p => p.2)

/-- Step 3 of `compute_uparea` applied to one raw `NextDownCOMID` value:
`-9999` is replaced by NaN, and downstream ids not in the network are set to
NaN (`next_clean`). `none` is the folded terminal value. -/
def cleanNextVal (rows : List URow) (v : Option Int) : Option Int :=
  match v with
  | Option.none => Option.none
  | Option.some k =>
      if k = -9999 then Option.none
      else if k ∈ rows.map (fun r => r.comid) then Option.some k
      else Option.none

/-- The `(COMID, next_clean)` pairs zipped into the `nextdown` dict. -/
def nextPairs (rows : List URow) : List (Int × Option Int) :=
  rows.map (fun r => (r.comid, cleanNextVal rows r.nextDown))

/-- `nextdown = dict(zip(df[comid_col], next_clean))`, read with `.get`
(missing key behaves like the folded terminal). -/
def nextdown (rows : List URow) : Int → Option Int :=
  fun u => (dictLookup (nextPairs rows) u).getD Option.none

/-- The `(COMID, area)` pairs (after `fillna(0.0)`) zipped into the `uparea`
dict that seeds the accumulation. -/
def areaPairs (rows : List URow) : List (Int × Rat) :=
  rows.map (fun r => (r.comid, r.unitarea.getD 0))

/-- The initial accumulator: each node starts at its own seed area. -/
def uparea0 (rows : List URow) : Int → Rat :=
  fun u => (dictLookup (areaPairs rows) u).getD 0

/-- The nodes of `ids` whose folded downstream pointer is `some d`. -/
def predsOf (ids : List Int) (nextd : Int → Option Int) (d : Int) : List Int :=
  ids.filter (fun u => nextd u == Option.some d)

/-- Step 5 of `compute_uparea`: in-degree of each node under the clean map
(`defaultdict(int)`, so integer-valued with default 0). -/
def indeg0 (ids : List Int) (nextd : Int → Option Int) : Int → Int :=
  fun d => ((predsOf ids nextd d).length : Int)

/-- The mutable state of the Kahn loop: the work queue (a FIFO deque), the
accumulators, the in-degrees, and — for the claims about visit counts — the
list of popped nodes paired with their accumulated value at pop time. -/
structure KState where
  queue : List Int
  uparea : Int → Rat
  indeg : Int → Int
  processed : List (Int × Rat)

/-- One iteration of the `while queue` loop of `compute_uparea`: pop the front
node `u`; if its clean downstream `d` exists, `uparea[d] += uparea[u]`,
`indegree[d] -= 1`, and `d` is appended when its in-degree reaches zero
(otherwise the popped terminal node just leaves the queue). -/
def kahnStep (nextd : Int → Option Int) (s : KState) : KState :=
  match s.queue with
  | [] => s
  | u :: qs =>
      match nextd u with
      | Option.none =>
          { s with queue := qs, processed := s.processed ++ [(u, s.uparea u)] }
      | Option.some d =>
          { queue := if s.indeg d - 1 = 0 then qs ++ [d] else qs
            uparea := fun x => if x = d then s.uparea x + s.uparea u else s.uparea x
            indeg := fun x => if x = d then s.indeg x - 1 else s.indeg x
            processed := s.processed ++ [(u, s.uparea u)] }

/-- Step 7 of `compute_uparea`: the `while queue` loop, iterated.  `fuel`
bounds the number of iterations; `kahnFuel` below supplies enough fuel for the
loop to reach queue exhaustion exactly as the unbounded Python loop does. -/
def kahnRun (nextd : Int → Option Int) : Nat → KState → KState
  | 0, s => s
  | Nat.succ fuel, s =>
      if s.queue.isEmpty then s else kahnRun nextd fuel (kahnStep nextd s)

/-- Step 6 of `compute_uparea`: the queue is initialized with all headwaters
(in-degree zero), and the state with the seed accumulators and in-degrees. -/
def kahnInit (ids : List Int) (nextd : Int → Option Int) (seed : Int → Rat) : KState :=
  { queue := ids.filter (fun c => indeg0 ids nextd c == 0)
    uparea := seed
    indeg := indeg0 ids nextd
    processed := [] }

/-- Fuel sufficient for the Kahn loop to reach queue exhaustion: the initial
queue length plus the total in-degree (each iteration strictly decreases this
measure, see `kahnRun_measure`). -/
def kahnFuel (ids : List Int) (nextd : Int → Option Int) : Nat :=
  (kahnInit ids nextd (fun _ => 0)).queue.length
    + (ids.map (fun d => (indeg0 ids nextd d).toNat)).sum

/-- The Kahn accumulation run to completion from the initial state. -/
def kahnFull (ids : List Int) (nextd : Int → Option Int) (seed : Int → Rat) : KState :=
  kahnRun nextd (kahnFuel ids nextd) (kahnInit ids nextd seed)

/-- `Utility.compute_uparea`, steps 0–7: the final loop state for a river table. -/
def computeUpareaState (rows : List URow) : KState :=
  kahnFull (comids rows) (nextdown rows) (uparea0 rows)

/-- The computed `uparea` of a node. -/
def upareaOf (rows : List URow) : Int → Rat :=
  (computeUpareaState rows).uparea

/-- Step 8 of `compute_uparea`: the returned table.  Each input row keeps its
original `NextDownCOMID` encoding untouched; `unitarea` has NaN filled with 0
(the function mutated that column in step 1); the new `uparea` column is
`df[comid_col].map(uparea)`. -/
def computeUparea (rows : List URow) : List (URow × Rat) :=
  rows.map (fun r =>
    ({ r with unitarea := Option.some (r.unitarea.getD 0) }, upareaOf rows r.comid))

/-- `iterNext n x`: follow the folded downstream map `n` steps from `x`. -/
def iterNext (nextd : Int → Option Int) : Nat → Int → Option Int
  | 0, x => Option.some x
  | Nat.succ n, x => (nextd x).bind (iterNext nextd n)

/-- Acyclicity of the folded downstream map over the node set, bounded by the
number of nodes (a cycle, if any, gives one of length at most `ids.length`):
no node returns to itself in `1 .. ids.length` steps.  Stated with bounded
quantifiers so that it is decidable on concrete networks. -/
def AcyclicN (ids : List Int) (nextd : Int → Option Int) : Prop :=
  ∀ x ∈ ids, ∀ n ∈ List.range ids.length, iterNext nextd (n + 1) x ≠ Option.some x

/-- The sum, over the nodes whose folded downstream pointer is `n`, of `f`. -/
def childSum (rows : List URow) (f : Int → Rat) (n : Int) : Rat :=
  (((comids rows).filter (fun u => nextdown rows u == Option.some n)).map f).sum

/-- A small acyclic test network: segments 1 and 2 drain into 3, which is an
outlet (sentinel `-9999`). -/
def uex1 : List URow :=
  [⟨1, Option.some 3, Option.some 2⟩,
   ⟨2, Option.some 3, Option.some 5⟩,
   ⟨3, Option.some (-9999), Option.some 1⟩]

/-- The synthetic two-node cycle `A→B→A` of the spec's cycle-detection test
(A = 1, B = 2), with seed areas 3 and 4. -/
def ucyc : List URow :=
  [⟨1, Option.some 2, Option.some 3⟩,
   ⟨2, Option.some 1, Option.some 4⟩]

/-! ### Embedding of `NetworkTopologyCorrection` (network_correction.py)

Geometry is an abstract type `γ`: the geometry engine (geopandas/shapely) is
an external collaborator, so its outputs — overlay intersection/difference
tables, areas, lengths, validity — enter the embedding as explicit
parameters of the functions that consume them. -/

/-- A Python cell value as seen by `is_exhoreic_flag`: `None`, a float NaN, a
number, or a string (carrying the result of Python `float(s)`: `some q` when
the string parses as the rational `q`, `none` when `float` raises
`ValueError`, e.g. on `"abc"`). -/
inductive PyVal where
  | none : PyVal
  | nan : PyVal
  | num : Rat → PyVal
  | str : Option Rat → PyVal
  deriving Repr, DecidableEq

/-- `is_exhoreic_flag` (network_correction.py, inside
`_riv_topology_correction`): `None` and NaN give false; everything else is
coerced with `float(...)` and compared with 1; a `ValueError`/`TypeError`
gives false. -/
def isExhoreicFlag : PyVal → Bool
  | PyVal.none => false
  | PyVal.nan => false
  | PyVal.num q => q == 1
  | PyVal.str o =>
      match o with
      | Option.some q => q == 1
      | Option.none => false

/-- A row of the working river table during `_riv_topology_correction`, after
the lake rows are stacked (step 4) and the flag columns initialized (step 5):
`COMID`, the `LakeCOMID` column (null on original river rows), the raw
`NextDownCOMID`, the attribute columns `length`/`unitarea`/`uparea` (null
where the stacked frame has no value, e.g. `length` on lake rows), the
geometry, and the `islake`/`inflow`/`outflow` flags. -/
structure RivM (γ : Type) where
  comid : Int
  lakeComid : Option Int
  nextDown : Option Int
  length : Option Rat
  unitarea : Option Rat
  uparea : Option Rat
  geom : Option γ
  islake : Int
  inflow : Int
  outflow : Int
  deriving DecidableEq

/-- `subset["uparea"].idxmax()` then `.loc[..., "COMID"]`: the COMID of the
first row (in table order) attaining the maximal `uparea`; pandas `idxmax`
skips NaN and keeps the first occurrence of the maximum. -/
def firstMaxAux {γ : Type} : Option (Int × Rat) → List (RivM γ) → Option (Int × Rat)
  | acc, [] => acc
  | acc, r :: rs =>
      match r.uparea with
      | Option.none => firstMaxAux acc rs
      | Option.some q =>
          match acc with
          | Option.none => firstMaxAux (Option.some (r.comid, q)) rs
          | Option.some m =>
              if m.2 < q then firstMaxAux (Option.some (r.comid, q)) rs
              else firstMaxAux acc rs

/-- The COMID selected by `idxmax` over a row subset (none when the subset is
empty or all-NaN, where pandas would raise). -/
def firstMaxUparea {γ : Type} (rows : List (RivM γ)) : Option Int :=
  (firstMaxAux Option.none rows).map (fun m => m.1)

/-- The body of the per-lake loop of `_riv_topology_correction` (step 5), for
one lake with caller id `lkComid`, assigned node id `comid`, intersecting
original river ids `rivIds` (`lake_riv[...].unique()`) and raw `exorheic`
attribute `exo`:
mark the intersecting rows `inflow = 1`; set the lake row's `NextDownCOMID`
to `-9999`; retarget every intersecting row's `NextDownCOMID` to the lake's
`comid`; if the flag parses as exorheic, pick the intersecting row of maximal
`uparea` as outlet, flip its `outflow`/`inflow` to 1/0, and point the lake
row at it.  The loop body is split below into its five per-row updates
(`lakeInflowMark` … `lakeOutletSet`) composed by `lakeStep`.

`riv.loc[riv["COMID"].isin(riv_ids), "inflow"] = 1`, per row: -/
def lakeInflowMark {γ : Type} (rivIds : List Int) (r : RivM γ) : RivM γ :=
  if r.comid ∈ rivIds then { r with inflow := 1 } else r

/-- `riv.loc[riv["LakeCOMID"] == lk_comid, "NextDownCOMID"] = -9999`, per row
(endorheic-by-default for the lake's own row). -/
def lakeSinkSet {γ : Type} (lkComid : Int) (r : RivM γ) : RivM γ :=
  if r.lakeComid == Option.some lkComid then
    { r with nextDown := Option.some (-9999) } else r

/-- `riv.loc[riv["COMID"].isin(riv_ids), "NextDownCOMID"] = comid`, per row. -/
def lakeRetarget {γ : Type} (rivIds : List Int) (comid : Int) (r : RivM γ) : RivM γ :=
  if r.comid ∈ rivIds then { r with nextDown := Option.some comid } else r

/-- Setting `outflow = 1` and `inflow = 0` on the designated outlet row. -/
def outletFlags {γ : Type} (o : Int) (r : RivM γ) : RivM γ :=
  if r.comid = o then { r with outflow := 1, inflow := 0 } else r

/-- `riv.loc[riv["LakeCOMID"] == lk_comid, "NextDownCOMID"] = outflow_riv`. -/
def lakeOutletSet {γ : Type} (lkComid o : Int) (r : RivM γ) : RivM γ :=
  if r.lakeComid == Option.some lkComid then
    { r with nextDown := Option.some o } else r

/-- The table after the three unconditional per-lake updates (inflow marking,
lake-row sink default, retargeting). -/
def lakeRiv3 {γ : Type} (riv : List (RivM γ)) (lkComid comid : Int)
    (rivIds : List Int) : List (RivM γ) :=
  ((riv.map (lakeInflowMark rivIds)).map (lakeSinkSet lkComid)).map
    (lakeRetarget rivIds comid)

def lakeStep {γ : Type} (riv : List (RivM γ)) (lkComid comid : Int)
    (rivIds : List Int) (exo : PyVal) : List (RivM γ) :=
  if rivIds.isEmpty then riv
  else
    let riv3 := lakeRiv3 riv lkComid comid rivIds
    if isExhoreicFlag exo then
      match firstMaxUparea (riv3.filter (fun r => decide (r.comid ∈ rivIds))) with
      | Option.none => riv3
      | Option.some o => (riv3.map (outletFlags o)).map (lakeOutletSet lkComid o)
    else riv3

/-- A resolvable lake entering `_riv_topology_correction`: caller-domain
`LakeCOMID`, raw `exorheic` attribute, `unitarea`, geometry. -/
structure LakeR (γ : Type) where
  lakeComid : Int
  exorheic : PyVal
  unitarea : Rat
  geom : γ
  deriving DecidableEq

/-- A row of `lake_riv = gpd.overlay(riv, lake, how="intersection")` as used
by the topology step: the river's COMID and `uparea` and the lake's
`LakeCOMID` (the geometry itself is only used by the shrink pass, which gets
its own overlay). -/
structure LRInt where
  rivComid : Int
  lakeComid : Int
  uparea : Option Rat
  deriving Repr, DecidableEq

/-- The per-lake sort key: the maximum river `uparea` among this lake's
intersection rows (`groupby(...).max()`, NaN-skipping), `none` when it has
none — filled with `float("inf")` before sorting. -/
def lakeMaxUp (lakeRiv : List LRInt) (lk : Int) : Option Rat :=
  ((lakeRiv.filter (fun x => x.lakeComid == lk)).filterMap (fun x => x.uparea)).max?

/-- Ordering on sort keys with `none` as `float("inf")` (missing keys sort
last). -/
def keyLE : Option Rat → Option Rat → Bool
  | Option.none, Option.none => true
  | Option.none, Option.some _ => false
  | Option.some _, Option.none => true
  | Option.some a, Option.some b => decide (a ≤ b)

/-- Steps 1–2 of `_riv_topology_correction`: sort the lakes ascending by
their maximal intersecting `uparea` (missing → last); when the overlay is
empty the original lake order is kept. -/
def sortLakes {γ : Type} (lakeRiv : List LRInt) (lakes : List (LakeR γ)) :
    List (LakeR γ) :=
  if lakeRiv.isEmpty then lakes
  else lakes.insertionSort
    (fun a b => keyLE (lakeMaxUp lakeRiv a.lakeComid) (lakeMaxUp lakeRiv b.lakeComid) = true)

/-- `max(riv["COMID"].max(), cat["COMID"].max())`. -/
def maxCid (rivIds catIds : List Int) : Int :=
  max ((rivIds.max?).getD 0) ((catIds.max?).getD 0)

/-- Step 3: assign each lake, in the given (sorted) order, the consecutive
new COMIDs `maxCOMID + 1, maxCOMID + 2, ...`. -/
def assignLakeComids {γ : Type} (rivIds catIds : List Int)
    (lakes : List (LakeR γ)) : List (LakeR γ × Int) :=
  lakes.enum.map (fun p => (p.2, maxCid rivIds catIds + 1 + (p.1 : Int)))

/-- Steps 1–3 composed: sort, then number. -/
def sortAndAssign {γ : Type} (lakeRiv : List LRInt) (rivIds catIds : List Int)
    (lakes : List (LakeR γ)) : List (LakeR γ × Int) :=
  assignLakeComids rivIds catIds (sortLakes lakeRiv lakes)

/-- A row of the original river table entering `_riv_geometry_correction`. -/
structure GRiv (γ : Type) where
  comid : Int
  geom : γ
  length : Rat
  deriving DecidableEq

/-- A corrected river row: possibly nulled geometry, scaled `length`, and the
kept `length_ratio` column. -/
structure RivCorr (γ : Type) where
  comid : Int
  geom : Option γ
  length : Rat
  lengthRatio : Rat
  deriving DecidableEq

/-- `_riv_geometry_correction`: `glen` is the engine's line length
(`riv.geometry.length`), `rivInt` the rows of
`gpd.overlay(riv, lake, "intersection")` as `(COMID, piece length)` pairs,
and `diffMap` the engine's `riv − lake` difference geometry per COMID (absent
when the difference output dropped the row).  An empty overlay takes the
trivial branch (`length_ratio = 1`, nothing touched); otherwise
`ratio = clip(1 − submerged/length_org, 0, 1)`, affected rows (`ratio < 1`)
get the difference geometry, fully submerged rows (`ratio = 0`) get null
geometry, and `length` is multiplied by the ratio. -/
def rivGeometryCorrection {γ : Type} (glen : γ → Rat) (riv : List (GRiv γ))
    (rivInt : List (Int × Rat)) (diffMap : Int → Option γ) : List (RivCorr γ) :=
  if rivInt.isEmpty then
    riv.map (fun r => { comid := r.comid, geom := Option.some r.geom,
                        length := r.length, lengthRatio := 1 })
  else
    riv.map (fun r =>
      let lengthOrg := glen r.geom
      let submerged := ((rivInt.filter (fun p => p.1 == r.comid)).map (fun p => p.2)).sum
      let ratio := min 1 (max 0 (1 - submerged / lengthOrg))
      let g1 : Option γ := if ratio < 1 then diffMap r.comid else Option.some r.geom
      let g2 : Option γ := if ratio = 0 then Option.none else g1
      { comid := r.comid, geom := g2, length := r.length * ratio, lengthRatio := ratio })

/-- The river part of step 6 of `_riv_topology_correction` (the loop over
`riv` applying the shrink maps and the lake-geometry override): ratios are
looked up among corrected rows with `length_ratio < 1` (default 1); a ratio
of 0 nulls the geometry and zeroes the length; a ratio in `(0,1)` takes the
corrected geometry when present and valid, and the corrected length; rows
flagged `islake` then receive the lake's own geometry when present and
valid.

The ratio-driven geometry/length update of one row, given this COMID's entry
of the `length_ratio < 1` lookup: -/
def applyRivRatio {γ : Type} (entry : Option (RivCorr γ)) (valid : γ → Bool)
    (r : RivM γ) : RivM γ :=
  match entry with
  | Option.none => r
  | Option.some c =>
    if c.lengthRatio = 0 then { r with geom := Option.none, length := Option.some 0 }
    else if c.lengthRatio < 1 then
      let r2 :=
        match c.geom with
        | Option.some g => if valid g then { r with geom := Option.some g } else r
        | Option.none => r
      { r2 with length := Option.some c.length }
    else r

/-- The lake-geometry override of one row: a row flagged `islake` receives
the lake's own geometry when present and valid. -/
def applyLakeGeom {γ : Type} (lakeGeomMap : Int → Option γ) (valid : γ → Bool)
    (r1 : RivM γ) : RivM γ :=
  if r1.islake == 1 then
    match lakeGeomMap r1.comid with
    | Option.some g => if valid g then { r1 with geom := Option.some g } else r1
    | Option.none => r1
  else r1

def applyRivCorr {γ : Type} (riv : List (RivM γ)) (corr : List (RivCorr γ))
    (lakeGeomMap : Int → Option γ) (valid : γ → Bool) : List (RivM γ) :=
  let lt1 := corr.filter (fun c => decide (c.lengthRatio < 1))
  riv.map (fun r =>
    applyLakeGeom lakeGeomMap valid
      (applyRivRatio (lt1.reverse.find? (fun c => c.comid == r.comid)) valid r))

/-- A row of the original catchment table. -/
structure GCat (γ : Type) where
  comid : Int
  geom : γ
  unitarea : Rat
  deriving DecidableEq

/-- A corrected catchment row (with the kept `area_ratio`). -/
structure CatCorr (γ : Type) where
  comid : Int
  geom : Option γ
  unitarea : Rat
  areaRatio : Rat
  deriving DecidableEq

/-- `_cat_geometry_correction`: `areaF` is the engine's polygon area and
`catInt` the rows of `gpd.overlay(cat, lake, "difference")`, one (dissolved)
row per surviving COMID.  A COMID missing from the difference is fully
covered (`area_out_lake = 0`); `ratio = area_out_lake / area_org`; rows with
`0 < ratio < 1` get the difference geometry, `ratio = 0` null geometry,
others keep their own; `unitarea` is scaled by the ratio. -/
def catGeometryCorrection {γ : Type} (areaF : γ → Rat) (cat : List (GCat γ))
    (catInt : List (Int × γ)) : List (CatCorr γ) :=
  cat.map (fun c =>
    let areaOrg := areaF c.geom
    let diffGeom := dictLookup catInt c.comid
    let areaOut := (diffGeom.map areaF).getD 0
    let ratio := areaOut / areaOrg
    let geom : Option γ :=
      if 0 < ratio ∧ ratio < 1 then diffGeom
      else if ratio = 0 then Option.none
      else Option.some c.geom
    { comid := c.comid, geom := geom, unitarea := c.unitarea * ratio,
      areaRatio := ratio })

/-- A row of the stacked catchment table (original rows plus lake rows). -/
structure CatM (γ : Type) where
  comid : Int
  unitarea : Rat
  geom : Option γ
  islake : Int
  deriving DecidableEq

/-- The catchment part of step 6 of `_riv_topology_correction`: per row, the
`area_ratio` is looked up in the corrected table (default 1); ratio 0 nulls
geometry and zeroes `unitarea`; otherwise geometry is taken from the
corrected table when present and valid and `unitarea` from the corrected
table when present. -/
def applyCatCorr {γ : Type} (cat : List (CatM γ)) (corr : List (CatCorr γ))
    (valid : γ → Bool) : List (CatM γ) :=
  cat.map (fun c =>
    let ratio := (dictLookup (corr.map (fun x => (x.comid, x.areaRatio))) c.comid).getD 1
    if ratio = 0 then { c with geom := Option.none, unitarea := 0 }
    else
      let c1 :=
        match (dictLookup (corr.map (fun x => (x.comid, x.geom))) c.comid).getD Option.none with
        | Option.some g => if valid g then { c with geom := Option.some g } else c
        | Option.none => c
      match dictLookup (corr.map (fun x => (x.comid, x.unitarea))) c.comid with
      | Option.some a => { c1 with unitarea := a }
      | Option.none => c1)

/-- `Utility.add_immediate_upstream` for one node: the rows whose
`NextDownCOMID` points at `x` (the code adds the reversed edge only when the
downstream value is `> -0.01`, i.e. `≥ 0` for integers; null adds nothing),
in table order. -/
def immediateUps {γ : Type} (rows : List (RivM γ)) (x : Int) : List Int :=
  (rows.filter (fun r =>
      match r.nextDown with
      | Option.some v => v == x && decide (0 ≤ v)
      | Option.none => false)).map (fun r => r.comid)

/-- A row of the original river table entering `_riv_topology_correction`. -/
structure RivIn (γ : Type) where
  comid : Int
  nextDown : Option Int
  length : Rat
  unitarea : Option Rat
  uparea : Option Rat
  geom : γ
  deriving DecidableEq

/-- A row of the final corrected river table: the stacked/rewired/shrunk row
plus the recomputed `uparea` and the `up*`/`maxup` columns. -/
structure RivOut (γ : Type) where
  comid : Int
  lakeComid : Option Int
  nextDown : Option Int
  length : Option Rat
  unitarea : Rat
  uparea : Rat
  geom : Option γ
  islake : Int
  inflow : Int
  outflow : Int
  inoutflow : Int
  ups : List Int
  maxup : Nat
  deriving DecidableEq

/-- `NetworkTopologyCorrection._riv_topology_correction`, assembled from the
component functions above.  The geometry engine's overlay outputs enter as
`lakeRiv` (river×lake intersection rows for the topology/sorting), `rivInt`
(the same overlay's `(COMID, piece length)` pairs for the river shrink),
`rivDiffMap` (river difference geometries) and `catInt` (catchment
difference rows). -/
def rivTopologyCorrection {γ : Type} (glen areaF : γ → Rat) (valid : γ → Bool)
    (riv : List (RivIn γ)) (cat : List (GCat γ)) (lakes : List (LakeR γ))
    (lakeRiv : List LRInt) (rivInt : List (Int × Rat))
    (rivDiffMap : Int → Option γ) (catInt : List (Int × γ)) :
    List (RivOut γ) × List (CatM γ) × List (LakeR γ × Int) :=
  let catCorr := catGeometryCorrection areaF cat catInt
  let rivCorr := rivGeometryCorrection glen
    (riv.map (fun r => { comid := r.comid, geom := r.geom, length := r.length }))
    rivInt rivDiffMap
  let lakesA := sortAndAssign lakeRiv (riv.map (fun r => r.comid))
    (cat.map (fun c => c.comid)) lakes
  let rivM : List (RivM γ) :=
    riv.map (fun r => ⟨r.comid, Option.none, r.nextDown, Option.some r.length,
      r.unitarea, r.uparea, Option.some r.geom, 0, 0, 0⟩)
    ++ lakesA.map (fun p => ⟨p.2, Option.some p.1.lakeComid, Option.none, Option.none,
      Option.some p.1.unitarea, Option.none, Option.some p.1.geom, 1, 0, 0⟩)
  let catM : List (CatM γ) :=
    cat.map (fun c => ⟨c.comid, c.unitarea, Option.some c.geom, 0⟩)
    ++ lakesA.map (fun p => ⟨p.2, p.1.unitarea, Option.some p.1.geom, 1⟩)
  let rivT := lakesA.foldl (fun acc p =>
    lakeStep acc p.1.lakeComid p.2
      (dedupKeys ((lakeRiv.filter (fun x => x.lakeComid == p.1.lakeComid)).map
        (fun x => x.rivComid)))
      p.1.exorheic) rivM
  let rivA := applyRivCorr rivT rivCorr
    (fun cid => dictLookup (lakesA.map (fun p => (p.2, p.1.geom))) cid) valid
  let catA := applyCatCorr catM catCorr valid
  let rivU := rivA.map (fun r =>
    { r with
      unitarea :=
        Option.some ((dictLookup (catA.map (fun c => (c.comid, c.unitarea))) r.comid).getD 0) })
  let urows : List URow := rivU.map (fun r => ⟨r.comid, r.nextDown, r.unitarea⟩)
  let final : List (RivOut γ) := rivU.map (fun r =>
    { comid := r.comid, lakeComid := r.lakeComid, nextDown := r.nextDown,
      length := r.length, unitarea := r.unitarea.getD 0,
      uparea := upareaOf urows r.comid,
      geom := r.geom, islake := r.islake, inflow := r.inflow, outflow := r.outflow,
      inoutflow := if r.inflow == (1 : Int) && r.outflow == (1 : Int) then 1 else 0,
      ups := immediateUps rivU r.comid,
      maxup := (immediateUps rivU r.comid).length })
  (final, catA, lakesA)

/-- The spec's exorheic example: three segments with upstream areas 10, 50,
20 draining to segment 3, plus the stacked lake row (node id 100, caller lake
id 7). -/
def c2riv : List (RivM Unit) :=
  [⟨1, Option.none, Option.some 3, Option.some 1, Option.some 1, Option.some 10,
     Option.none, 0, 0, 0⟩,
   ⟨2, Option.none, Option.some 3, Option.some 1, Option.some 1, Option.some 50,
     Option.none, 0, 0, 0⟩,
   ⟨3, Option.none, Option.some (-9999), Option.some 1, Option.some 1, Option.some 20,
     Option.none, 0, 0, 0⟩,
   ⟨100, Option.some 7, Option.none, Option.none, Option.some 4, Option.none,
     Option.none, 1, 0, 0⟩]

/-- The intersecting original segment ids of the example lake. -/
def c2ids : List Int := [1, 2, 3]

/-! ### Embedding of `OutputChecker` (output_checker.py) -/

/-- A river row as seen by the output checker. -/
structure ChkRow where
  comid : Int
  nextDown : Option Int
  deriving Repr, DecidableEq

/-- `_build_upstream_graph`: `upstream[d]` collects the COMIDs of the rows
whose non-null `NextDownCOMID` is `d > 0`. -/
def upstreamOf (rows : List ChkRow) (d : Int) : List Int :=
  (rows.filter (fun r => r.nextDown == Option.some d && decide (0 < d))).map
    (fun r => r.comid)

/-- An outlet row of `_check_graph`: null or non-positive `NextDownCOMID`. -/
def isOutletRow (r : ChkRow) : Bool :=
  match r.nextDown with
  | Option.none => true
  | Option.some v => decide (v ≤ 0)

/-- The outlet COMIDs compared by `_check_graph`: outlets of the corrected
table that also exist in the original table. -/
def outletComids (riv rivOrg : List ChkRow) : List Int :=
  ((riv.filter isOutletRow).map (fun r => r.comid)).filter
    (fun c => decide (c ∈ rivOrg.map (fun r => r.comid)))

/-- `OutputChecker._check_graph`: the first violating outlet (its corrected
upstream set is not a subset of its original one) together with its extra
upstream COMIDs — `some` exactly when the Python code raises `ValueError`
(whose message reports this example node and its extra upstream set). -/
def checkGraph (riv rivOrg : List ChkRow) : Option (Int × List Int) :=
  ((outletComids riv rivOrg).find? (fun c =>
      !((upstreamOf riv c).all (fun x => decide (x ∈ upstreamOf rivOrg c))))).map
    (fun c => (c, (upstreamOf riv c).filter (fun x => decide (x ∉ upstreamOf rivOrg c))))

/-! ### Basic lemmas about the list primitives of the embedding -/

theorem dedupKeys_cons (x : Int) (xs : List Int) :
    dedupKeys (x :: xs) = if xs.contains x then dedupKeys xs else x :: dedupKeys xs :=
  rfl

theorem mem_dedupKeys {a : Int} : ∀ {l : List Int}, a ∈ dedupKeys l ↔ a ∈ l
  | [] => Iff.rfl
  | x :: xs => by
      by_cases h : xs.contains x = true
      · have hx : x ∈ xs := by simpa using h
        rw [dedupKeys_cons, if_pos h, mem_dedupKeys (l := xs), List.mem_cons]
        constructor
        · exact fun ha => Or.inr ha
        · rintro (rfl | ha)
          · exact hx
          · exact ha
      · rw [dedupKeys_cons, if_neg h, List.mem_cons, List.mem_cons,
          mem_dedupKeys (l := xs)]

theorem nodup_dedupKeys : ∀ l : List Int, (dedupKeys l).Nodup
  | [] => List.nodup_nil
  | x :: xs => by
      by_cases h : xs.contains x = true
      · rw [dedupKeys_cons, if_pos h]
        exact nodup_dedupKeys xs
      · have hx : x ∉ xs := by simpa using h
        rw [dedupKeys_cons, if_neg h, List.nodup_cons]
        exact ⟨fun hmem => hx (mem_dedupKeys.mp hmem), nodup_dedupKeys xs⟩

theorem comids_nodup (rows : List URow) : (comids rows).Nodup :=
  nodup_dedupKeys _

theorem mem_comids {rows : List URow} {a : Int} :
    a ∈ comids rows ↔ a ∈ rows.map (fun r => r.comid) :=
  mem_dedupKeys

theorem dictLookup_mem {α : Type} {pairs : List (Int × α)} {k : Int} {v : α}
    (h : dictLookup pairs k = Option.some v) : (k, v) ∈ pairs := by
  unfold dictLookup at h
  cases e : pairs.reverse.find? (fun p => p.1 == k) with
  | none => rw [e] at h; simp at h
  | some p =>
      rw [e] at h
      have hv : p.2 = v := by simpa using h
      have hp : p ∈ pairs.reverse := List.mem_of_find?_eq_some e
      have hk := List.find?_some e
      have hk' : p.1 = k := by simpa using hk
      have hpkv : p = (k, v) := by
        cases p
        simp_all
      rw [← hpkv]
      exact List.mem_reverse.mp hp

theorem cleanNextVal_mem {rows : List URow} {v : Option Int} {d : Int}
    (h : cleanNextVal rows v = Option.some d) : d ∈ rows.map (fun r => r.comid) := by
  cases v with
  | none => simp [cleanNextVal] at h
  | some k =>
      by_cases h1 : k = -9999
      · simp [cleanNextVal, h1] at h
      · by_cases h2 : k ∈ rows.map (fun r => r.comid)
        · simp only [cleanNextVal, h1, if_false, h2, if_true, Option.some.injEq] at h
          exact h ▸ h2
        · simp [cleanNextVal, h1, h2] at h

theorem nextdown_mem_comids {rows : List URow} {u d : Int}
    (h : nextdown rows u = Option.some d) : d ∈ comids rows := by
  unfold nextdown at h
  cases e : dictLookup (nextPairs rows) u with
  | none => rw [e] at h; simp at h
  | some w =>
      rw [e] at h
      simp only [Option.getD_some] at h
      subst h
      have hmem : (u, Option.some d) ∈ nextPairs rows := dictLookup_mem e
      unfold nextPairs at hmem
      rcases List.mem_map.mp hmem with ⟨r, _, hr⟩
      have : cleanNextVal rows r.nextDown = Option.some d := congrArg Prod.snd hr
      exact mem_comids.mpr (cleanNextVal_mem this)

/-! ### The Kahn loop invariant -/

/-- The nodes popped from the queue so far. -/
def popped (s : KState) : List Int := s.processed.map Prod.fst

theorem nodup_append_single {l : List Int} (hl : l.Nodup) {a : Int} (ha : a ∉ l) :
    (l ++ [a]).Nodup := by
  rw [List.nodup_append]
  exact ⟨hl, List.nodup_singleton a, by
    intro x hx hxa
    rcases List.mem_singleton.mp hxa with rfl
    exact ha hx⟩

/-- The invariant maintained by every iteration of the Kahn loop: popped and
queued nodes are distinct nodes of the network, the current in-degrees count
the not-yet-popped upstream neighbours, exactly the unpopped nodes of
in-degree zero sit in the queue, every predecessor of a popped or queued node
has already been popped, each accumulator equals its seed plus the pop-time
values of its popped predecessors, and a popped node's accumulator no longer
changes. -/
structure KInv (ids : List Int) (nextd : Int → Option Int) (seed : Int → Rat)
    (s : KState) : Prop where
  queue_sub : ∀ u ∈ s.queue, u ∈ ids
  popped_sub : ∀ u ∈ popped s, u ∈ ids
  queue_nodup : s.queue.Nodup
  popped_nodup : (popped s).Nodup
  disj : ∀ u ∈ s.queue, u ∉ popped s
  indeg_eq : ∀ d : Int,
    s.indeg d
      = (((predsOf ids nextd d).filter (fun u => decide (u ∉ popped s))).length : Int)
  queue_iff : ∀ v ∈ ids, v ∉ popped s → (s.indeg v = 0 ↔ v ∈ s.queue)
  preds_done : ∀ x : Int, x ∈ popped s ∨ x ∈ s.queue →
    ∀ u ∈ predsOf ids nextd x, u ∈ popped s
  up_eq : ∀ x : Int,
    s.uparea x
      = seed x
        + ((s.processed.filter (fun p => nextd p.1 == Option.some x)).map Prod.snd).sum
  up_stable : ∀ p ∈ s.processed, p.2 = s.uparea p.1

theorem kinv_init (ids : List Int) (nextd : Int → Option Int) (seed : Int → Rat)
    (hids : ids.Nodup) : KInv ids nextd seed (kahnInit ids nextd seed) := by
  constructor
  · exact fun u hu => (List.mem_filter.mp hu).1
  · intro u hu; simp [popped, kahnInit] at hu
  · exact hids.filter _
  · simp [popped, kahnInit]
  · intro u _; simp [popped, kahnInit]
  · intro d
    show indeg0 ids nextd d = _
    unfold indeg0
    have hfe : List.filter (fun u => decide (u ∉ popped (kahnInit ids nextd seed)))
        (predsOf ids nextd d) = predsOf ids nextd d :=
      List.filter_eq_self.mpr (fun x _ => by simp [popped, kahnInit])
    rw [hfe]
  · intro v hv _
    show indeg0 ids nextd v = 0 ↔ v ∈ ids.filter (fun c => indeg0 ids nextd c == 0)
    rw [List.mem_filter]
    constructor
    · intro h0; exact ⟨hv, by simpa using h0⟩
    · intro hmem; simpa using hmem.2
  · intro x hx u hu
    rcases hx with hx | hx
    · simp [popped, kahnInit] at hx
    · have := (List.mem_filter.mp hx).2
      have h0 : indeg0 ids nextd x = 0 := by simpa using this
      unfold indeg0 at h0
      have hlen : (predsOf ids nextd x).length = 0 := by exact_mod_cast h0
      rw [List.length_eq_zero] at hlen
      rw [hlen] at hu
      simp at hu
  · intro x
    show seed x = _
    simp [kahnInit]
  · intro p hp
    simp [kahnInit] at hp

theorem mem_predsOf {ids : List Int} {nextd : Int → Option Int} {d x : Int} :
    x ∈ predsOf ids nextd d ↔ x ∈ ids ∧ nextd x = Option.some d := by
  simp [predsOf]

/-- Removing one present element from the exclusion complement drops the
filtered length by exactly one (on a duplicate-free list). -/
theorem length_filter_snoc_mem {u : Int} {P : List Int} (huP : u ∉ P) :
    ∀ {l : List Int}, l.Nodup → u ∈ l →
    (l.filter (fun x => decide (x ∉ P))).length
      = (l.filter (fun x => decide (x ∉ P ++ [u]))).length + 1 := by
  intro l
  induction l with
  | nil => intro _ hu; exact absurd hu (List.not_mem_nil u)
  | cons x xs ih =>
      intro hnd hu
      have hndx := List.nodup_cons.mp hnd
      by_cases hxu : x = u
      · subst hxu
        have hfc : xs.filter (fun y => decide (y ∉ P ++ [x]))
            = xs.filter (fun y => decide (y ∉ P)) := by
          apply List.filter_congr
          intro y hy
          have hyu : y ≠ x := fun h => hndx.1 (h ▸ hy)
          simp [List.mem_append, hyu]
        rw [List.filter_cons_of_pos (by simpa using huP),
          List.filter_cons_of_neg (by simp), hfc, List.length_cons]
      · have hu' : u ∈ xs := by
          rcases List.mem_cons.mp hu with h | h
          · exact absurd h.symm hxu
          · exact h
        have hrec := ih hndx.2 hu'
        by_cases hxP : x ∈ P
        · rw [List.filter_cons_of_neg (by simpa using hxP),
            List.filter_cons_of_neg (by simp [List.mem_append, hxP]), hrec]
        · have hx2 : x ∉ P ++ [u] := by
            simp [List.mem_append, hxP, hxu]
          rw [List.filter_cons_of_pos (by simpa using hxP),
            List.filter_cons_of_pos (by simpa using hx2),
            List.length_cons, List.length_cons, hrec]

/-- One iteration of the Kahn loop preserves the invariant. -/
theorem kinv_step (ids : List Int) (nextd : Int → Option Int) (seed : Int → Rat)
    (hids : ids.Nodup) (hnext : ∀ u d, nextd u = Option.some d → d ∈ ids)
    (s : KState) (hinv : KInv ids nextd seed s) :
    KInv ids nextd seed (kahnStep nextd s) := by
  obtain ⟨q, up, ind, pr⟩ := s
  cases q with
  | nil => exact hinv
  | cons u qs =>
  have hu_ids : u ∈ ids := hinv.queue_sub u (List.mem_cons_self u qs)
  have hu_np : u ∉ pr.map Prod.fst := hinv.disj u (List.mem_cons_self u qs)
  have hq_nd : (u :: qs).Nodup := hinv.queue_nodup
  have hu_nqs : u ∉ qs := (List.nodup_cons.mp hq_nd).1
  have hqs_nd : qs.Nodup := (List.nodup_cons.mp hq_nd).2
  cases hd : nextd u with
  | none =>
      have hstep : kahnStep nextd ⟨u :: qs, up, ind, pr⟩
          = ⟨qs, up, ind, pr ++ [(u, up u)]⟩ := by
        simp [kahnStep, hd]
      rw [hstep]
      have hP' : popped ⟨qs, up, ind, pr ++ [(u, up u)]⟩
          = pr.map Prod.fst ++ [u] := by simp [popped]
      constructor
      · intro v hv; exact hinv.queue_sub v (List.mem_cons_of_mem u hv)
      · intro v hv
        rw [hP'] at hv
        rcases List.mem_append.mp hv with h | h
        · exact hinv.popped_sub v h
        · rcases List.mem_singleton.mp h with rfl; exact hu_ids
      · exact hqs_nd
      · rw [hP']; exact nodup_append_single hinv.popped_nodup hu_np
      · intro v hv
        rw [hP']
        intro hmem
        rcases List.mem_append.mp hmem with h | h
        · exact hinv.disj v (List.mem_cons_of_mem u hv) h
        · rcases List.mem_singleton.mp h with rfl; exact hu_nqs hv
      · intro d
        rw [hP']
        have hfc : (predsOf ids nextd d).filter
              (fun x => decide (x ∉ pr.map Prod.fst ++ [u]))
            = (predsOf ids nextd d).filter (fun x => decide (x ∉ pr.map Prod.fst)) := by
          apply List.filter_congr
          intro y hy
          have hyu : y ≠ u := by
            intro h; subst h
            have := (mem_predsOf.mp hy).2
            rw [hd] at this; exact Option.noConfusion this
          simp [List.mem_append, hyu]
        rw [hfc]
        exact hinv.indeg_eq d
      · intro v hv hvp
        rw [hP'] at hvp
        have hvp1 : v ∉ pr.map Prod.fst := fun h => hvp (List.mem_append.mpr (Or.inl h))
        have hvu : v ≠ u := by
          intro h; subst h
          exact hvp (List.mem_append.mpr (Or.inr (List.mem_singleton.mpr rfl)))
        have hold := hinv.queue_iff v hv hvp1
        rw [hold, List.mem_cons]
        constructor
        · intro h
          rcases h with h | h
          · exact absurd h hvu
          · exact h
        · exact fun h => Or.inr h
      · intro x hx w hw
        rw [hP'] at hx ⊢
        have hw' : w ∈ pr.map Prod.fst := by
          rcases hx with hx | hx
          · rcases List.mem_append.mp hx with h | h
            · exact hinv.preds_done x (Or.inl h) w hw
            · have hxu : x = u := List.mem_singleton.mp h
              rw [hxu] at hw
              exact hinv.preds_done u (Or.inr (List.mem_cons_self u qs)) w hw
          · exact hinv.preds_done x (Or.inr (List.mem_cons_of_mem u hx)) w hw
        exact List.mem_append.mpr (Or.inl hw')
      · intro x
        show up x = _
        have hfa : (pr ++ [(u, up u)]).filter (fun p => nextd p.1 == Option.some x)
            = pr.filter (fun p => nextd p.1 == Option.some x) := by
          rw [List.filter_append]
          have : ([(u, up u)].filter (fun p => nextd p.1 == Option.some x)) = [] := by
            simp [hd]
          rw [this, List.append_nil]
        rw [hfa]
        exact hinv.up_eq x
      · intro p hp
        rcases List.mem_append.mp hp with h | h
        · exact hinv.up_stable p h
        · rcases List.mem_singleton.mp h with rfl
          rfl  | some d =>
      have hd_ids : d ∈ ids := hnext u d hd
      have hu_pred : u ∈ predsOf ids nextd d := mem_predsOf.mpr ⟨hu_ids, hd⟩
      have hd_np : d ∉ pr.map Prod.fst := by
        intro h
        exact hu_np (hinv.preds_done d (Or.inl h) u hu_pred)
      have hd_ne_u : d ≠ u := by
        intro h
        apply hu_np
        apply hinv.preds_done d (Or.inr ?_) u hu_pred
        rw [h]
        exact List.mem_cons_self u qs
      have hd_nqs : d ∉ qs := by
        intro h
        exact hu_np (hinv.preds_done d (Or.inr (List.mem_cons_of_mem u h)) u hu_pred)
      have hcount : ind d
          = (((predsOf ids nextd d).filter
              (fun x => decide (x ∉ pr.map Prod.fst))).length : Int) :=
        hinv.indeg_eq d
      have hpre_nd : (predsOf ids nextd d).Nodup := hids.filter _
      have hcount' := length_filter_snoc_mem hu_np hpre_nd hu_pred
      have hstep : kahnStep nextd ⟨u :: qs, up, ind, pr⟩
          = ⟨if ind d - 1 = 0 then qs ++ [d] else qs,
             fun x => if x = d then up x + up u else up x,
             fun x => if x = d then ind x - 1 else ind x,
             pr ++ [(u, up u)]⟩ := by
        simp [kahnStep, hd]
      rw [hstep]
      have hP' : popped ⟨if ind d - 1 = 0 then qs ++ [d] else qs,
          fun x => if x = d then up x + up u else up x,
          fun x => if x = d then ind x - 1 else ind x,
          pr ++ [(u, up u)]⟩ = pr.map Prod.fst ++ [u] := by simp [popped]
      have hmem_newq : ∀ v : Int, v ∈ (if ind d - 1 = 0 then qs ++ [d] else qs)
          → v ∈ qs ∨ v = d := by
        intro v hv
        by_cases h0 : ind d - 1 = 0
        · rw [if_pos h0] at hv
          rcases List.mem_append.mp hv with h | h
          · exact Or.inl h
          · exact Or.inr (List.mem_singleton.mp h)
        · rw [if_neg h0] at hv
          exact Or.inl hv
      have hnewcount : ∀ e : Int,
          (if e = d then ind e - 1 else ind e)
            = (((predsOf ids nextd e).filter
                (fun x => decide (x ∉ pr.map Prod.fst ++ [u]))).length : Int) := by
        intro e
        by_cases he : e = d
        · subst he
          rw [if_pos rfl, hcount]
          omega
        · rw [if_neg he]
          have hfc : (predsOf ids nextd e).filter
                (fun x => decide (x ∉ pr.map Prod.fst ++ [u]))
              = (predsOf ids nextd e).filter (fun x => decide (x ∉ pr.map Prod.fst)) := by
            apply List.filter_congr
            intro y hy
            have hyu : y ≠ u := by
              intro hyx; subst hyx
              have h2 := (mem_predsOf.mp hy).2
              rw [hd] at h2
              exact he (Option.some.inj h2).symm
            simp [List.mem_append, hyu]
          rw [hfc]
          exact hinv.indeg_eq e
      constructor
      · intro v hv
        rcases hmem_newq v hv with h | h
        · exact hinv.queue_sub v (List.mem_cons_of_mem u h)
        · rw [h]; exact hd_ids
      · intro v hv
        rw [hP'] at hv
        rcases List.mem_append.mp hv with h | h
        · exact hinv.popped_sub v h
        · have hvu : v = u := List.mem_singleton.mp h
          rw [hvu]; exact hu_ids
      · show (if ind d - 1 = 0 then qs ++ [d] else qs).Nodup
        by_cases h0 : ind d - 1 = 0
        · rw [if_pos h0]; exact nodup_append_single hqs_nd hd_nqs
        · rw [if_neg h0]; exact hqs_nd
      · rw [hP']; exact nodup_append_single hinv.popped_nodup hu_np
      · intro v hv
        rw [hP']
        intro hmem
        rcases List.mem_append.mp hmem with h | h
        · rcases hmem_newq v hv with hv' | hvd
          · exact hinv.disj v (List.mem_cons_of_mem u hv') h
          · rw [hvd] at h; exact hd_np h
        · have hvu : v = u := List.mem_singleton.mp h
          rcases hmem_newq v hv with hv' | hvd
          · rw [hvu] at hv'; exact hu_nqs hv'
          · rw [hvu] at hvd; exact hd_ne_u hvd.symm
      · intro e
        rw [hP']
        exact hnewcount e
      · intro v hv hvp
        rw [hP'] at hvp
        have hvp1 : v ∉ pr.map Prod.fst := fun h => hvp (List.mem_append.mpr (Or.inl h))
        have hvu : v ≠ u := by
          intro h
          apply hvp
          apply List.mem_append.mpr
          right
          rw [h]
          exact List.mem_singleton.mpr rfl
        show (if v = d then ind v - 1 else ind v) = 0
          ↔ v ∈ (if ind d - 1 = 0 then qs ++ [d] else qs)
        by_cases hve : v = d
        · rw [if_pos hve, hve]
          constructor
          · intro h0
            rw [if_pos h0]
            exact List.mem_append.mpr (Or.inr (List.mem_singleton.mpr rfl))
          · intro hmem
            by_cases h0 : ind d - 1 = 0
            · exact h0
            · rw [if_neg h0] at hmem
              exact absurd hmem hd_nqs
        · rw [if_neg hve]
          have hold : ind v = 0 ↔ v ∈ u :: qs := hinv.queue_iff v hv hvp1
          rw [hold, List.mem_cons]
          constructor
          · intro h
            rcases h with h | h
            · exact absurd h hvu
            · by_cases h0 : ind d - 1 = 0
              · rw [if_pos h0]; exact List.mem_append.mpr (Or.inl h)
              · rw [if_neg h0]; exact h
          · intro h
            rcases hmem_newq v h with h' | h'
            · exact Or.inr h'
            · exact absurd h' hve
      · intro x hx w hw
        rw [hP'] at hx ⊢
        rcases hx with hx | hx
        · rcases List.mem_append.mp hx with h | h
          · exact List.mem_append.mpr (Or.inl (hinv.preds_done x (Or.inl h) w hw))
          · have hxu : x = u := List.mem_singleton.mp h
            rw [hxu] at hw
            exact List.mem_append.mpr
              (Or.inl (hinv.preds_done u (Or.inr (List.mem_cons_self u qs)) w hw))
        · have hx2 : x ∈ (if ind d - 1 = 0 then qs ++ [d] else qs) := hx
          rcases hmem_newq x hx2 with hx' | hxd
          · exact List.mem_append.mpr
              (Or.inl (hinv.preds_done x (Or.inr (List.mem_cons_of_mem u hx')) w hw))
          · rw [hxd] at hw hx2
            have h0 : ind d - 1 = 0 := by
              by_contra h0
              rw [if_neg h0] at hx2
              exact hd_nqs hx2
            have hzero := hnewcount d
            rw [if_pos rfl, h0] at hzero
            have hlen : ((predsOf ids nextd d).filter
                (fun y => decide (y ∉ pr.map Prod.fst ++ [u]))).length = 0 := by
              exact_mod_cast hzero.symm
            rw [List.length_eq_zero] at hlen
            by_contra hwnp
            have hw2 : w ∈ (predsOf ids nextd d).filter
                (fun y => decide (y ∉ pr.map Prod.fst ++ [u])) :=
              List.mem_filter.mpr ⟨hw, by simpa using hwnp⟩
            rw [hlen] at hw2
            exact absurd hw2 (List.not_mem_nil w)
      · intro x
        show (if x = d then up x + up u else up x)
          = seed x + (((pr ++ [(u, up u)]).filter
              (fun p => nextd p.1 == Option.some x)).map Prod.snd).sum
        have hold : up x = seed x
            + ((pr.filter (fun p => nextd p.1 == Option.some x)).map Prod.snd).sum :=
          hinv.up_eq x
        rw [List.filter_append]
        by_cases hx : x = d
        · rw [if_pos hx]
          have hkeep : [(u, up u)].filter (fun p => nextd p.1 == Option.some x)
              = [(u, up u)] := by
            simp [hd, hx]
          rw [hkeep, List.map_append, List.sum_append, hold]
          simp [add_assoc]
        · rw [if_neg hx]
          have hdrop : [(u, up u)].filter (fun p => nextd p.1 == Option.some x)
              = [] := by
            rw [List.filter_eq_nil_iff]
            intro p hp
            have hpu : p = (u, up u) := List.mem_singleton.mp hp
            rw [hpu]
            simp only [hd, beq_iff_eq, Option.some.injEq]
            exact fun h => hx h.symm
          rw [hdrop, List.append_nil]
          exact hold
      · intro p hp
        rcases List.mem_append.mp hp with h | h
        · have hps : p.2 = up p.1 := hinv.up_stable p h
          have hpd : p.1 ≠ d := by
            intro he
            exact hd_np (he ▸ List.mem_map.mpr ⟨p, h, rfl⟩)
          show p.2 = if p.1 = d then up p.1 + up u else up p.1
          rw [if_neg hpd]
          exact hps
        · have hpu : p = (u, up u) := List.mem_singleton.mp h
          rw [hpu]
          show up u = if u = d then up u + up u else up u
          rw [if_neg (fun hq => hd_ne_u hq.symm)]
/-! ### Termination of the Kahn loop: the measure argument -/

/-- The loop measure: queued nodes plus the total residual in-degree. -/
def kMeasure (ids : List Int) (s : KState) : Nat :=
  s.queue.length + (ids.map (fun d => (s.indeg d).toNat)).sum

theorem sum_toNat_update {d : Int} (f g : Int → Int) (hfg : ∀ x, x ≠ d → g x = f x)
    (hgd : g d = f d - 1) (hfd : 1 ≤ f d) :
    ∀ {ids : List Int}, ids.Nodup → d ∈ ids →
    (ids.map (fun x => (g x).toNat)).sum + 1 = (ids.map (fun x => (f x).toNat)).sum := by
  intro ids
  induction ids with
  | nil => intro _ hd; exact absurd hd (List.not_mem_nil d)
  | cons x xs ih =>
      intro hnd hd
      have hndx := List.nodup_cons.mp hnd
      by_cases hxd : x = d
      · subst hxd
        have htail : xs.map (fun y => (g y).toNat) = xs.map (fun y => (f y).toNat) := by
          apply List.map_congr_left
          intro y hy
          have hyx : y ≠ x := fun h => hndx.1 (h ▸ hy)
          rw [hfg y hyx]
        rw [List.map_cons, List.map_cons, List.sum_cons, List.sum_cons, htail, hgd]
        omega
      · have hd' : d ∈ xs := by
          rcases List.mem_cons.mp hd with h | h
          · exact absurd h.symm hxd
          · exact h
        rw [List.map_cons, List.map_cons, List.sum_cons, List.sum_cons,
          hfg x hxd]
        have := ih hndx.2 hd'
        omega

/-- Each loop iteration on a nonempty queue strictly decreases the measure. -/
theorem kahnStep_measure (ids : List Int) (nextd : Int → Option Int) (seed : Int → Rat)
    (hids : ids.Nodup) (hnext : ∀ u d, nextd u = Option.some d → d ∈ ids)
    (s : KState) (hinv : KInv ids nextd seed s) (hne : s.queue ≠ []) :
    kMeasure ids (kahnStep nextd s) < kMeasure ids s := by
  obtain ⟨q, up, ind, pr⟩ := s
  cases q with
  | nil => exact absurd rfl hne
  | cons u qs =>
  have hu_ids : u ∈ ids := hinv.queue_sub u (List.mem_cons_self u qs)
  have hu_np : u ∉ pr.map Prod.fst := hinv.disj u (List.mem_cons_self u qs)
  cases hd : nextd u with
  | none =>
      have hstep : kahnStep nextd ⟨u :: qs, up, ind, pr⟩
          = ⟨qs, up, ind, pr ++ [(u, up u)]⟩ := by
        simp [kahnStep, hd]
      rw [hstep]
      show qs.length + (ids.map (fun x => (ind x).toNat)).sum
        < (u :: qs).length + (ids.map (fun x => (ind x).toNat)).sum
      simp [Nat.lt_succ_self]
  | some d =>
      have hd_ids : d ∈ ids := hnext u d hd
      have hu_pred : u ∈ predsOf ids nextd d := mem_predsOf.mpr ⟨hu_ids, hd⟩
      have hcount : ind d
          = (((predsOf ids nextd d).filter
              (fun x => decide (x ∉ pr.map Prod.fst))).length : Int) :=
        hinv.indeg_eq d
      have hpos : 1 ≤ ind d := by
        have : u ∈ (predsOf ids nextd d).filter
            (fun x => decide (x ∉ pr.map Prod.fst)) :=
          List.mem_filter.mpr ⟨hu_pred, by simpa using hu_np⟩
        have hlen : 1 ≤ ((predsOf ids nextd d).filter
            (fun x => decide (x ∉ pr.map Prod.fst))).length :=
          List.length_pos.mpr (List.ne_nil_of_mem this)
        omega
      have hstep : kahnStep nextd ⟨u :: qs, up, ind, pr⟩
          = ⟨if ind d - 1 = 0 then qs ++ [d] else qs,
             fun x => if x = d then up x + up u else up x,
             fun x => if x = d then ind x - 1 else ind x,
             pr ++ [(u, up u)]⟩ := by
        simp [kahnStep, hd]
      rw [hstep]
      have hsum : (ids.map (fun x => (if x = d then ind x - 1 else ind x).toNat)).sum + 1
          = (ids.map (fun x => (ind x).toNat)).sum :=
        sum_toNat_update (d := d) ind
          (fun x => if x = d then ind x - 1 else ind x)
          (fun x hx => if_neg hx) (if_pos rfl) hpos hids hd_ids
      have hlt2 : (ids.map (fun x => (if x = d then ind x - 1 else ind x).toNat)).sum
          < (ids.map (fun x => (ind x).toNat)).sum := by omega
      show (if ind d - 1 = 0 then qs ++ [d] else qs).length
            + (ids.map (fun x => (if x = d then ind x - 1 else ind x).toNat)).sum
          < (u :: qs).length + (ids.map (fun x => (ind x).toNat)).sum
      have hlc : (u :: qs).length = qs.length + 1 := List.length_cons u qs
      by_cases h0 : ind d - 1 = 0
      · rw [if_pos h0, List.length_append, List.length_cons, List.length_nil, hlc]
        omega
      · rw [if_neg h0, hlc]
        omega

/-- Run with fuel at least the measure: the invariant holds at the end and the
queue is exhausted (so the bounded loop behaves exactly like the Python
`while` loop). -/
theorem kahnRun_exhausts (ids : List Int) (nextd : Int → Option Int) (seed : Int → Rat)
    (hids : ids.Nodup) (hnext : ∀ u d, nextd u = Option.some d → d ∈ ids) :
    ∀ (fuel : Nat) (s : KState), KInv ids nextd seed s → kMeasure ids s ≤ fuel →
    KInv ids nextd seed (kahnRun nextd fuel s) ∧ (kahnRun nextd fuel s).queue = [] := by
  intro fuel
  induction fuel with
  | zero =>
      intro s hinv hm
      have : s.queue.length = 0 := by
        have := Nat.le_zero.mp hm
        unfold kMeasure at this
        omega
      rw [List.length_eq_zero] at this
      exact ⟨hinv, this⟩
  | succ fuel ih =>
      intro s hinv hm
      have hrun : kahnRun nextd (fuel + 1) s
          = if s.queue.isEmpty then s else kahnRun nextd fuel (kahnStep nextd s) := rfl
      by_cases hq : s.queue.isEmpty
      · have hq' : s.queue = [] := List.isEmpty_iff.mp hq
        rw [hrun, if_pos hq]
        exact ⟨hinv, hq'⟩
      · have hne : s.queue ≠ [] := fun h => hq (by rw [h]; rfl)
        have hlt := kahnStep_measure ids nextd seed hids hnext s hinv hne
        have hinv' := kinv_step ids nextd seed hids hnext s hinv
        have hm' : kMeasure ids (kahnStep nextd s) ≤ fuel := by omega
        rw [hrun, if_neg hq]
        exact ih (kahnStep nextd s) hinv' hm'

/-- The supplied fuel equals the initial measure. -/
theorem kahnFuel_eq_measure (ids : List Int) (nextd : Int → Option Int)
    (seed : Int → Rat) :
    kahnFuel ids nextd = kMeasure ids (kahnInit ids nextd seed) := rfl

/-- The invariant and queue exhaustion at the end of the full run. -/
theorem kahnFull_spec (ids : List Int) (nextd : Int → Option Int) (seed : Int → Rat)
    (hids : ids.Nodup) (hnext : ∀ u d, nextd u = Option.some d → d ∈ ids) :
    KInv ids nextd seed (kahnFull ids nextd seed)
      ∧ (kahnFull ids nextd seed).queue = [] := by
  unfold kahnFull
  exact kahnRun_exhausts ids nextd seed hids hnext (kahnFuel ids nextd)
    (kahnInit ids nextd seed) (kinv_init ids nextd seed hids)
    (Nat.le_of_eq (kahnFuel_eq_measure ids nextd seed).symm)

/-! ### Completion under acyclicity -/

theorem iterNext_chain {nextd : Int → Option Int} (f : Nat → Int)
    (hstep : ∀ k, nextd (f (k + 1)) = Option.some (f k)) :
    ∀ (n i : Nat), iterNext nextd n (f (i + n)) = Option.some (f i) := by
  intro n
  induction n with
  | zero => intro i; rfl
  | succ n ih =>
      intro i
      show (nextd (f (i + (n + 1)))).bind (iterNext nextd n) = _
      have hi : i + (n + 1) = (i + n) + 1 := by omega
      rw [hi, hstep (i + n)]
      exact ih i

/-- If the folded map is acyclic then queue exhaustion has popped every node. -/
theorem kahnFull_all_popped (ids : List Int) (nextd : Int → Option Int) (seed : Int → Rat)
    (hids : ids.Nodup) (hnext : ∀ u d, nextd u = Option.some d → d ∈ ids)
    (hacyc : AcyclicN ids nextd) :
    ∀ v ∈ ids, v ∈ popped (kahnFull ids nextd seed) := by
  obtain ⟨hinv, hq⟩ := kahnFull_spec ids nextd seed hids hnext
  set s := kahnFull ids nextd seed with hs
  set U : List Int := ids.filter (fun v => decide (v ∉ popped s)) with hU
  have hUstep : ∀ v ∈ U, ∃ u, u ∈ U ∧ nextd u = Option.some v := by
    intro v hv
    have hv_ids : v ∈ ids := (List.mem_filter.mp hv).1
    have hv_np : v ∉ popped s := by simpa using (List.mem_filter.mp hv).2
    have hiff := hinv.queue_iff v hv_ids hv_np
    have hnz : s.indeg v ≠ 0 := by
      intro h0
      have hmem := hiff.mp h0
      rw [hq] at hmem
      exact absurd hmem (List.not_mem_nil v)
    have hcnt := hinv.indeg_eq v
    have hne : ((predsOf ids nextd v).filter (fun u => decide (u ∉ popped s))) ≠ [] := by
      intro hnil
      rw [hnil] at hcnt
      exact hnz (by simpa using hcnt)
    obtain ⟨u, hu⟩ := List.exists_mem_of_ne_nil _ hne
    have hu_mem := List.mem_filter.mp hu
    have hu_pred := mem_predsOf.mp hu_mem.1
    exact ⟨u, List.mem_filter.mpr ⟨hu_pred.1, hu_mem.2⟩, hu_pred.2⟩
  intro v0 hv0_ids
  by_contra hv0_np
  have hv0U : v0 ∈ U := List.mem_filter.mpr ⟨hv0_ids, by simpa using hv0_np⟩
  have hg : ∀ v : Int, ∃ u : Int, v ∈ U → (u ∈ U ∧ nextd u = Option.some v) := by
    intro v
    by_cases hv : v ∈ U
    · obtain ⟨u, hu1, hu2⟩ := hUstep v hv
      exact ⟨u, fun _ => ⟨hu1, hu2⟩⟩
    · exact ⟨0, fun h => absurd h hv⟩
  choose g hgspec using hg
  have hfU : ∀ k : Nat, g^[k] v0 ∈ U := by
    intro k
    induction k with
    | zero => exact hv0U
    | succ k ih =>
        rw [Function.iterate_succ_apply' g k v0]
        exact (hgspec (g^[k] v0) ih).1
  have hfstep : ∀ k : Nat, nextd (g^[k + 1] v0) = Option.some (g^[k] v0) := by
    intro k
    rw [Function.iterate_succ_apply' g k v0]
    exact (hgspec (g^[k] v0) (hfU k)).2
  have hcard : U.toFinset.card < (Finset.range (U.length + 1)).card := by
    rw [Finset.card_range]
    have := U.toFinset_card_le
    omega
  have hmaps : ∀ k ∈ Finset.range (U.length + 1), g^[k] v0 ∈ U.toFinset :=
    fun k _ => List.mem_toFinset.mpr (hfU k)
  obtain ⟨a, ha, b, hb, hab, hfeq⟩ :=
    Finset.exists_ne_map_eq_of_card_lt_of_maps_to hcard hmaps
  have hmain : ∀ i j : Nat, i < j → j < U.length + 1 → g^[i] v0 = g^[j] v0 → False := by
    intro i j hij hjb hf
    have hchain := iterNext_chain (fun k => g^[k] v0) hfstep (j - i) i
    have hij' : i + (j - i) = j := by omega
    rw [hij'] at hchain
    rw [hf] at hchain
    have hfj_ids : g^[j] v0 ∈ ids := (List.mem_filter.mp (hfU j)).1
    have hUlen : U.length ≤ ids.length := List.length_filter_le _ _
    have hrange : j - i - 1 ∈ List.range ids.length := List.mem_range.mpr (by omega)
    have hnsucc := hacyc (g^[j] v0) hfj_ids (j - i - 1) hrange
    have heq : j - i - 1 + 1 = j - i := by omega
    rw [heq] at hnsucc
    exact hnsucc hchain
  rcases hab.lt_or_lt with h | h
  · exact hmain a b h (Finset.mem_range.mp hb) hfeq
  · exact hmain b a h (Finset.mem_range.mp ha) hfeq.symm

/-- Under acyclicity, the popped list is a permutation of the node set. -/
theorem kahnFull_popped_perm (ids : List Int) (nextd : Int → Option Int) (seed : Int → Rat)
    (hids : ids.Nodup) (hnext : ∀ u d, nextd u = Option.some d → d ∈ ids)
    (hacyc : AcyclicN ids nextd) :
    (popped (kahnFull ids nextd seed)).Perm ids := by
  have hinv := (kahnFull_spec ids nextd seed hids hnext).1
  refine (List.perm_ext_iff_of_nodup hinv.popped_nodup hids).mpr ?_
  intro a
  constructor
  · exact fun h => hinv.popped_sub a h
  · exact fun h => kahnFull_all_popped ids nextd seed hids hnext hacyc a h

theorem sum_snd_filter_eq (nextd : Int → Option Int) (x : Int) (up : Int → Rat) :
    ∀ (P : List (Int × Rat)), (∀ p ∈ P, p.2 = up p.1) →
    ((P.filter (fun p => nextd p.1 == Option.some x)).map Prod.snd).sum
      = (((P.map Prod.fst).filter (fun u => nextd u == Option.some x)).map up).sum := by
  intro P
  induction P with
  | nil => intro _; rfl
  | cons p ps ih =>
      intro hstable
      have hp := hstable p (List.mem_cons_self p ps)
      have htail := ih (fun q hq => hstable q (List.mem_cons_of_mem p hq))
      cases hb : (nextd p.1 == Option.some x) with
      | true =>
          simp only [List.map_cons, List.filter_cons, hb, if_true, List.sum_cons]
          rw [htail, hp]
      | false =>
          simp only [List.map_cons, List.filter_cons, hb, Bool.false_eq_true,
            if_false]
          exact htail

/-- Kahn accumulation correctness over an acyclic folded map: every
accumulator ends at its seed plus the sum of the final accumulators of its
immediate upstream nodes. -/
theorem kahnFull_uparea_eq (ids : List Int) (nextd : Int → Option Int) (seed : Int → Rat)
    (hids : ids.Nodup) (hnext : ∀ u d, nextd u = Option.some d → d ∈ ids)
    (hacyc : AcyclicN ids nextd) (n : Int) :
    (kahnFull ids nextd seed).uparea n
      = seed n + ((ids.filter (fun u => nextd u == Option.some n)).map
          (kahnFull ids nextd seed).uparea).sum := by
  have hinv := (kahnFull_spec ids nextd seed hids hnext).1
  have hup := hinv.up_eq n
  have hsnd := sum_snd_filter_eq nextd n (kahnFull ids nextd seed).uparea
    (kahnFull ids nextd seed).processed hinv.up_stable
  have hperm := kahnFull_popped_perm ids nextd seed hids hnext hacyc
  have hpf := hperm.filter (fun u => nextd u == Option.some n)
  have hsum := (hpf.map (kahnFull ids nextd seed).uparea).sum_eq
  rw [hup, hsnd]
  unfold popped at hsum
  rw [hsum]

/-! ### Claim theorems for the Area Accumulator (`Utility.compute_uparea`) -/

theorem computeUpareaState_congr (rows1 rows2 : List URow)
    (hc : comids rows1 = comids rows2) (hn : nextdown rows1 = nextdown rows2)
    (hu : uparea0 rows1 = uparea0 rows2) :
    computeUpareaState rows1 = computeUpareaState rows2 := by
  unfold computeUpareaState
  rw [hc, hn, hu]

theorem computeUparea_preserves_next (rows : List URow) :
    (computeUparea rows).map (fun p => p.1.nextDown)
      = rows.map (fun r => r.nextDown) := by
  unfold computeUparea
  rw [List.map_map]
  apply List.map_congr_left
  intro r _
  rfl

/-- C1: for every river table whose sentinel-folded downstream map is acyclic,
`compute_uparea` gives every node `uparea(n) = seed(n) + Σ uparea(u)` over the
nodes `u` whose folded `next_id` is `n` (null seeds count as zero, being
`fillna(0)`-folded into `uparea0`), and every node is popped from the Kahn
queue exactly once. -/
theorem compute_uparea_acyclic_correct (rows : List URow)
    (hacyc : AcyclicN (comids rows) (nextdown rows)) :
    (∀ n ∈ comids rows,
        upareaOf rows n = uparea0 rows n + childSum rows (upareaOf rows) n)
    ∧ (∀ n ∈ comids rows,
        ((computeUpareaState rows).processed.map Prod.fst).count n = 1) := by
  constructor
  · intro n _
    exact kahnFull_uparea_eq (comids rows) (nextdown rows) (uparea0 rows)
      (comids_nodup rows) (fun _ _ h => nextdown_mem_comids h) hacyc n
  · intro n hn
    have hinv := (kahnFull_spec (comids rows) (nextdown rows) (uparea0 rows)
      (comids_nodup rows) (fun _ _ h => nextdown_mem_comids h)).1
    have hmem := kahnFull_all_popped (comids rows) (nextdown rows) (uparea0 rows)
      (comids_nodup rows) (fun _ _ h => nextdown_mem_comids h) hacyc n hn
    exact List.count_eq_one_of_mem hinv.popped_nodup hmem

/-- C1 witness: the three-segment network `uex1` is acyclic and the theorem's
conclusions hold at its outlet node 3. -/
theorem compute_uparea_acyclic_correct_witness :
    AcyclicN (comids uex1) (nextdown uex1)
    ∧ upareaOf uex1 3 = uparea0 uex1 3 + childSum uex1 (upareaOf uex1) 3
    ∧ ((computeUpareaState uex1).processed.map Prod.fst).count 3 = 1 :=
  ⟨by unfold AcyclicN; decide,
   (compute_uparea_acyclic_correct uex1 (by unfold AcyclicN; decide)).1 3 (by decide),
   (compute_uparea_acyclic_correct uex1 (by unfold AcyclicN; decide)).2 3 (by decide)⟩

/-- C5 counterexample: on the two-node cycle `A→B→A` the accumulation does
not raise any graph-integrity error — the embedded function (total, exactly
like the Python code, which has no error path after its queue loop) returns a
complete table: no node is ever popped, both nodes keep residual in-degree 1
at queue exhaustion, and the returned `uparea` silently equals the seeds
(under-counted), contradicting the claimed fatal error. -/
theorem compute_uparea_cycle_silent :
    (computeUparea ucyc).length = 2
    ∧ (computeUpareaState ucyc).processed = []
    ∧ (computeUpareaState ucyc).queue = []
    ∧ (computeUpareaState ucyc).indeg 1 = 1
    ∧ (computeUpareaState ucyc).indeg 2 = 1
    ∧ upareaOf ucyc 1 = 3
    ∧ upareaOf ucyc 2 = 4 := by
  refine ⟨rfl, ?_, ?_, ?_, ?_, ?_, ?_⟩ <;> decide

/-- C5 amended: `compute_uparea` performs no cycle detection: it always
returns a full table (one output row per input row), and on a cyclic input
such as `A→B→A` it terminates with the cycle nodes never enqueued (residual
in-degree 1) and their `uparea` left at the seed values. -/
theorem compute_uparea_cycle_amended :
    (∀ rows : List URow, (computeUparea rows).length = rows.length)
    ∧ (computeUpareaState ucyc).processed = []
    ∧ (computeUpareaState ucyc).indeg 1 = 1
    ∧ upareaOf ucyc 1 = 3
    ∧ upareaOf ucyc 2 = 4 := by
  refine ⟨fun rows => by simp [computeUparea], ?_, ?_, ?_, ?_⟩ <;> decide

theorem uparea0_nonneg (rows : List URow)
    (hseed : ∀ r ∈ rows, (0 : Rat) ≤ r.unitarea.getD 0) :
    ∀ x : Int, 0 ≤ uparea0 rows x := by
  intro x
  unfold uparea0
  cases e : dictLookup (areaPairs rows) x with
  | none => simp
  | some v =>
      have hmem := dictLookup_mem e
      unfold areaPairs at hmem
      rcases List.mem_map.mp hmem with ⟨r, hr, hrv⟩
      have hv : r.unitarea.getD 0 = v := congrArg Prod.snd hrv
      simp only [Option.getD_some]
      rw [← hv]
      exact hseed r hr

theorem kahnRun_ge_seed (nextd : Int → Option Int) (seedFn : Int → Rat)
    (h0 : ∀ x, 0 ≤ seedFn x) :
    ∀ (fuel : Nat) (s : KState), (∀ x, seedFn x ≤ s.uparea x) →
    ∀ x, seedFn x ≤ (kahnRun nextd fuel s).uparea x := by
  intro fuel
  induction fuel with
  | zero => intro s hs x; exact hs x
  | succ fuel ih =>
      intro s hs x
      have hrun : kahnRun nextd (fuel + 1) s
          = if s.queue.isEmpty then s else kahnRun nextd fuel (kahnStep nextd s) := rfl
      rw [hrun]
      by_cases hq : s.queue.isEmpty
      · rw [if_pos hq]; exact hs x
      · rw [if_neg hq]
        apply ih
        intro y
        obtain ⟨q, up, ind, pr⟩ := s
        cases q with
        | nil => exact hs y
        | cons u qs =>
            cases hd : nextd u with
            | none =>
                have hstep : kahnStep nextd ⟨u :: qs, up, ind, pr⟩
                    = ⟨qs, up, ind, pr ++ [(u, up u)]⟩ := by simp [kahnStep, hd]
                rw [hstep]
                exact hs y
            | some d =>
                have hstep : kahnStep nextd ⟨u :: qs, up, ind, pr⟩
                    = ⟨if ind d - 1 = 0 then qs ++ [d] else qs,
                       fun x => if x = d then up x + up u else up x,
                       fun x => if x = d then ind x - 1 else ind x,
                       pr ++ [(u, up u)]⟩ := by simp [kahnStep, hd]
                rw [hstep]
                show seedFn y ≤ (if y = d then up y + up u else up y)
                by_cases hyd : y = d
                · rw [if_pos hyd]
                  have h1 : seedFn y ≤ up y := hs y
                  have h2 : (0 : Rat) ≤ up u := le_trans (h0 u) (hs u)
                  linarith
                · rw [if_neg hyd]; exact hs y

/-- C10 (implicit): with non-negative seed areas (nulls count as zero), the
accumulation terminates and returns a row for every input row even on cyclic
inputs, and every node's computed `uparea` is at least its own seed area. -/
theorem compute_uparea_ge_seed (rows : List URow)
    (hseed : ∀ r ∈ rows, (0 : Rat) ≤ r.unitarea.getD 0) :
    (computeUparea rows).length = rows.length
    ∧ ∀ n ∈ comids rows, uparea0 rows n ≤ upareaOf rows n := by
  constructor
  · simp [computeUparea]
  · intro n _
    exact kahnRun_ge_seed (nextdown rows) (uparea0 rows)
      (uparea0_nonneg rows hseed) (kahnFuel (comids rows) (nextdown rows))
      (kahnInit (comids rows) (nextdown rows) (uparea0 rows)) (fun _ => le_refl _) n

/-- C10 witness: the theorem applies to the cyclic two-node network `ucyc`
(whose seeds 3 and 4 are non-negative), at node 1. -/
theorem compute_uparea_ge_seed_witness :
    (∀ r ∈ ucyc, (0 : Rat) ≤ r.unitarea.getD 0)
    ∧ (computeUparea ucyc).length = ucyc.length
    ∧ uparea0 ucyc 1 ≤ upareaOf ucyc 1 :=
  ⟨by decide,
   (compute_uparea_ge_seed ucyc (by decide)).1,
   (compute_uparea_ge_seed ucyc (by decide)).2 1 (by decide)⟩

/-- The two cleaner outcomes used by C4: folding a raw `NextDownCOMID` value
depends on the table only through its COMID column. -/
theorem cleanNextVal_congr {rows1 rows2 : List URow}
    (h : rows1.map (fun r => r.comid) = rows2.map (fun r => r.comid)) (v : Option Int) :
    cleanNextVal rows1 v = cleanNextVal rows2 v := by
  unfold cleanNextVal
  cases v with
  | none => rfl
  | some k => rw [h]

/-- C4: the three terminal encodings of `next_id` (the `-9999` sentinel, a
null, and an identifier absent from the table — exactly the values folded to
`none` by `cleanNextVal`) are interchangeable for the accumulation: swapping
one row's encoding for another terminal encoding leaves every node's `uparea`
unchanged, and in both runs the output's stored `NextDownCOMID` column is the
input's, original encoding included. -/
theorem compute_uparea_sentinel_equiv (pre post : List URow) (r1 r2 : URow)
    (hcomid : r1.comid = r2.comid) (harea : r1.unitarea = r2.unitarea)
    (h1 : cleanNextVal (pre ++ r1 :: post) r1.nextDown = Option.none)
    (h2 : cleanNextVal (pre ++ r1 :: post) r2.nextDown = Option.none) :
    (∀ n : Int, upareaOf (pre ++ r1 :: post) n = upareaOf (pre ++ r2 :: post) n)
    ∧ (computeUparea (pre ++ r1 :: post)).map (fun p => p.1.nextDown)
        = (pre ++ r1 :: post).map (fun r => r.nextDown)
    ∧ (computeUparea (pre ++ r2 :: post)).map (fun p => p.1.nextDown)
        = (pre ++ r2 :: post).map (fun r => r.nextDown) := by
  have hmap : (pre ++ r1 :: post).map (fun r => r.comid)
      = (pre ++ r2 :: post).map (fun r => r.comid) := by
    rw [List.map_append, List.map_append, List.map_cons, List.map_cons, hcomid]
  have hcom : comids (pre ++ r1 :: post) = comids (pre ++ r2 :: post) := by
    unfold comids
    rw [hmap]
  have hclean : ∀ v, cleanNextVal (pre ++ r1 :: post) v
      = cleanNextVal (pre ++ r2 :: post) v := cleanNextVal_congr hmap
  have hnp : nextPairs (pre ++ r1 :: post) = nextPairs (pre ++ r2 :: post) := by
    unfold nextPairs
    rw [List.map_append, List.map_append, List.map_cons, List.map_cons]
    congr 1
    · apply List.map_congr_left
      intro r _
      rw [hclean r.nextDown]
    · congr 1
      · rw [hcomid, h1, ← hclean r2.nextDown, h2]
      · apply List.map_congr_left
        intro r _
        rw [hclean r.nextDown]
  have hnext : nextdown (pre ++ r1 :: post) = nextdown (pre ++ r2 :: post) := by
    funext u
    unfold nextdown
    rw [hnp]
  have hap : areaPairs (pre ++ r1 :: post) = areaPairs (pre ++ r2 :: post) := by
    unfold areaPairs
    rw [List.map_append, List.map_append, List.map_cons, List.map_cons,
      hcomid, harea]
  have hup : uparea0 (pre ++ r1 :: post) = uparea0 (pre ++ r2 :: post) := by
    funext u
    unfold uparea0
    rw [hap]
  have hstate := computeUpareaState_congr (pre ++ r1 :: post) (pre ++ r2 :: post)
    hcom hnext hup
  refine ⟨?_, computeUparea_preserves_next _, computeUparea_preserves_next _⟩
  intro n
  unfold upareaOf
  rw [hstate]

/-- C4 witness: a two-row table where the outlet's encoding is switched from
null to the `-9999` sentinel, giving the same `uparea` at node 2 and keeping
both stored encodings. -/
theorem compute_uparea_sentinel_equiv_witness :
    ((⟨1, Option.none, Option.some 2⟩ : URow).comid
        = (⟨1, Option.some (-9999), Option.some 2⟩ : URow).comid)
    ∧ (cleanNextVal [⟨1, Option.none, Option.some 2⟩, ⟨2, Option.some 1, Option.some 5⟩]
        (Option.none) = Option.none)
    ∧ (cleanNextVal [⟨1, Option.none, Option.some 2⟩, ⟨2, Option.some 1, Option.some 5⟩]
        (Option.some (-9999)) = Option.none)
    ∧ upareaOf [⟨1, Option.none, Option.some 2⟩, ⟨2, Option.some 1, Option.some 5⟩] 1
        = upareaOf [⟨1, Option.some (-9999), Option.some 2⟩,
            ⟨2, Option.some 1, Option.some 5⟩] 1 :=
  ⟨rfl, by decide, by decide,
   (compute_uparea_sentinel_equiv []
      [⟨2, Option.some 1, Option.some 5⟩]
      ⟨1, Option.none, Option.some 2⟩
      ⟨1, Option.some (-9999), Option.some 2⟩
      rfl rfl (by decide) (by decide)).1 1⟩

/-! ### Claim theorem for the Topology Invariant Checker -/

theorem mem_outletComids {riv rivOrg : List ChkRow} {c : Int} :
    c ∈ outletComids riv rivOrg
      ↔ (∃ r ∈ riv, r.comid = c ∧ isOutletRow r = true)
        ∧ c ∈ rivOrg.map (fun r => r.comid) := by
  unfold outletComids
  rw [List.mem_filter, List.mem_map]
  constructor
  · rintro ⟨⟨r, hr, hrc⟩, hdec⟩
    exact ⟨⟨r, (List.mem_filter.mp hr).1, hrc, (List.mem_filter.mp hr).2⟩,
      by simpa using hdec⟩
  · rintro ⟨⟨r, hr, hrc, hout⟩, horg⟩
    exact ⟨⟨r, List.mem_filter.mpr ⟨hr, hout⟩, hrc⟩, by simpa using horg⟩

theorem checkGraph_pred_iff {riv rivOrg : List ChkRow} {c : Int} :
    (!((upstreamOf riv c).all (fun x => decide (x ∈ upstreamOf rivOrg c)))) = true
      ↔ ¬ (∀ x ∈ upstreamOf riv c, x ∈ upstreamOf rivOrg c) := by
  rw [Bool.not_eq_true', ← Bool.not_eq_true]
  constructor
  · intro h hall
    exact h (List.all_eq_true.mpr (fun x hx => by simpa using hall x hx))
  · intro h hall
    exact h (fun x hx => by simpa using List.all_eq_true.mp hall x hx)

/-- C3: the output checker raises exactly when some node that is an outlet in
the corrected table (null or non-positive `NextDownCOMID`) and whose COMID
exists in the original table has a corrected upstream set that is not a
subset of its original upstream set (so newly created lake nodes, absent from
the original table, are exempt); the raised report carries one such offending
node together with its non-empty list of extra (unexpected) upstream
COMIDs. -/
theorem check_graph_correct (riv rivOrg : List ChkRow) :
    ((checkGraph riv rivOrg).isSome
      ↔ ∃ c : Int, (∃ r ∈ riv, r.comid = c ∧ isOutletRow r = true)
          ∧ c ∈ rivOrg.map (fun r => r.comid)
          ∧ ¬ (∀ x ∈ upstreamOf riv c, x ∈ upstreamOf rivOrg c))
    ∧ (∀ c : Int, ∀ extra : List Int,
        checkGraph riv rivOrg = Option.some (c, extra) →
        (∃ r ∈ riv, r.comid = c ∧ isOutletRow r = true)
        ∧ c ∈ rivOrg.map (fun r => r.comid)
        ∧ ¬ (∀ x ∈ upstreamOf riv c, x ∈ upstreamOf rivOrg c)
        ∧ extra = (upstreamOf riv c).filter (fun x => decide (x ∉ upstreamOf rivOrg c))
        ∧ extra ≠ []) := by
  have hmapIsSome : ∀ {α β : Type} (f : α → β) (o : Option α),
      (o.map f).isSome = o.isSome := fun f o => by cases o <;> rfl
  constructor
  · unfold checkGraph
    rw [hmapIsSome]
    rw [List.find?_isSome]
    constructor
    · rintro ⟨c, hc, hpred⟩
      rcases mem_outletComids.mp hc with ⟨hout, horg⟩
      exact ⟨c, hout, horg, checkGraph_pred_iff.mp hpred⟩
    · rintro ⟨c, hout, horg, hsub⟩
      exact ⟨c, mem_outletComids.mpr ⟨hout, horg⟩, checkGraph_pred_iff.mpr hsub⟩
  · intro c extra heq
    unfold checkGraph at heq
    cases hfind : (outletComids riv rivOrg).find? (fun c =>
        !((upstreamOf riv c).all (fun x => decide (x ∈ upstreamOf rivOrg c)))) with
    | none => rw [hfind] at heq; exact absurd heq (by simp)
    | some c0 =>
        rw [hfind] at heq
        have hc0 : c0 = c ∧ (upstreamOf riv c0).filter
            (fun x => decide (x ∉ upstreamOf rivOrg c0)) = extra := by
          have := heq
          simp only [Option.map_some] at this
          have hpair := Option.some.inj this
          exact ⟨congrArg Prod.fst hpair, congrArg Prod.snd hpair⟩
        rcases hc0 with ⟨rfl, hextra⟩
        have hmem := List.mem_of_find?_eq_some hfind
        have hpred := List.find?_some hfind
        rcases mem_outletComids.mp hmem with ⟨hout, horg⟩
        have hnsub := checkGraph_pred_iff.mp hpred
        refine ⟨hout, horg, hnsub, hextra.symm, ?_⟩
        rw [← hextra]
        rw [Classical.not_forall] at hnsub
        rcases hnsub with ⟨x, hx⟩
        rw [Classical.not_imp] at hx
        exact List.ne_nil_of_mem
          (List.mem_filter.mpr ⟨hx.1, by simpa using hx.2⟩)

/-! ### Claim theorems for the per-lake rewiring (`lakeStep`) -/

theorem firstMaxAux_spec {γ : Type} :
    ∀ (l : List (RivM γ)) (acc : Option (Int × Rat)) (m : Int × Rat),
    firstMaxAux acc l = Option.some m →
    ((acc = Option.some m) ∨ ∃ r ∈ l, r.comid = m.1 ∧ r.uparea = Option.some m.2)
    ∧ (∀ r ∈ l, ∀ q : Rat, r.uparea = Option.some q → q ≤ m.2)
    ∧ (∀ p : Int × Rat, acc = Option.some p → p.2 ≤ m.2) := by
  intro l
  induction l with
  | nil =>
      intro acc m h
      refine ⟨Or.inl h, fun r hr => absurd hr (List.not_mem_nil r), ?_⟩
      intro p hp
      rw [hp] at h
      rw [Option.some.inj h]
  | cons r rs ih =>
      intro acc m h
      cases hu : r.uparea with
      | none =>
          have h' : firstMaxAux acc rs = Option.some m := by
            rw [show firstMaxAux acc (r :: rs)
                = firstMaxAux acc rs from by simp [firstMaxAux, hu]] at h
            exact h
          obtain ⟨h1, h2, h3⟩ := ih acc m h'
          refine ⟨?_, ?_, h3⟩
          · rcases h1 with h1 | ⟨r', hr', hp⟩
            · exact Or.inl h1
            · exact Or.inr ⟨r', List.mem_cons_of_mem r hr', hp⟩
          · intro r' hr' q hq
            rcases List.mem_cons.mp hr' with hh | hh
            · rw [hh, hu] at hq; exact Option.noConfusion hq
            · exact h2 r' hh q hq
      | some q =>
          cases hacc : acc with
          | none =>
              subst hacc
              have h' : firstMaxAux (Option.some (r.comid, q)) rs = Option.some m := by
                rw [show firstMaxAux Option.none (r :: rs)
                    = firstMaxAux (Option.some (r.comid, q)) rs from by
                  simp [firstMaxAux, hu]] at h
                exact h
              obtain ⟨h1, h2, h3⟩ := ih _ m h'
              have hqm : q ≤ m.2 := h3 (r.comid, q) rfl
              refine ⟨?_, ?_, ?_⟩
              · rcases h1 with h1 | ⟨r', hr', hp⟩
                · have := Option.some.inj h1
                  exact Or.inr ⟨r, List.mem_cons_self r rs,
                    by rw [← this], by rw [← this]; exact hu⟩
                · exact Or.inr ⟨r', List.mem_cons_of_mem r hr', hp⟩
              · intro r' hr' q' hq'
                rcases List.mem_cons.mp hr' with hh | hh
                · rw [hh, hu] at hq'
                  rw [← Option.some.inj hq']
                  exact hqm
                · exact h2 r' hh q' hq'
              · intro p hp
                exact Option.noConfusion hp
          | some mm =>
              subst hacc
              by_cases hlt : mm.2 < q
              · have h' : firstMaxAux (Option.some (r.comid, q)) rs = Option.some m := by
                  rw [show firstMaxAux (Option.some mm) (r :: rs)
                      = firstMaxAux (Option.some (r.comid, q)) rs from by
                    simp [firstMaxAux, hu, hlt]] at h
                  exact h
                obtain ⟨h1, h2, h3⟩ := ih _ m h'
                have hqm : q ≤ m.2 := h3 (r.comid, q) rfl
                refine ⟨?_, ?_, ?_⟩
                · rcases h1 with h1 | ⟨r', hr', hp⟩
                  · have := Option.some.inj h1
                    exact Or.inr ⟨r, List.mem_cons_self r rs,
                      by rw [← this], by rw [← this]; exact hu⟩
                  · exact Or.inr ⟨r', List.mem_cons_of_mem r hr', hp⟩
                · intro r' hr' q' hq'
                  rcases List.mem_cons.mp hr' with hh | hh
                  · rw [hh, hu] at hq'
                    rw [← Option.some.inj hq']
                    exact hqm
                  · exact h2 r' hh q' hq'
                · intro p hp
                  have hpmm := Option.some.inj hp
                  rw [← hpmm]
                  exact le_trans (le_of_lt hlt) hqm
              · have h' : firstMaxAux (Option.some mm) rs = Option.some m := by
                  rw [show firstMaxAux (Option.some mm) (r :: rs)
                      = firstMaxAux (Option.some mm) rs from by
                    simp [firstMaxAux, hu, hlt]] at h
                  exact h
                obtain ⟨h1, h2, h3⟩ := ih _ m h'
                have hmm : mm.2 ≤ m.2 := h3 mm rfl
                refine ⟨?_, ?_, ?_⟩
                · rcases h1 with h1 | ⟨r', hr', hp⟩
                  · exact Or.inl h1
                  · exact Or.inr ⟨r', List.mem_cons_of_mem r hr', hp⟩
                · intro r' hr' q' hq'
                  rcases List.mem_cons.mp hr' with hh | hh
                  · rw [hh, hu] at hq'
                    rw [← Option.some.inj hq']
                    exact le_trans (not_lt.mp hlt) hmm
                  · exact h2 r' hh q' hq'
                · intro p hp
                  rw [← Option.some.inj hp]
                  exact hmm

theorem firstMaxAux_isSome_of_acc {γ : Type} :
    ∀ (l : List (RivM γ)) (acc : Option (Int × Rat)), acc.isSome →
    (firstMaxAux acc l).isSome := by
  intro l
  induction l with
  | nil => intro acc h; exact h
  | cons r rs ih =>
      intro acc h
      cases hu : r.uparea with
      | none =>
          rw [show firstMaxAux acc (r :: rs) = firstMaxAux acc rs from by
            simp [firstMaxAux, hu]]
          exact ih acc h
      | some q =>
          cases hacc : acc with
          | none =>
              subst hacc
              exact absurd h (by simp)
          | some mm =>
              subst hacc
              by_cases hlt : mm.2 < q
              · rw [show firstMaxAux (Option.some mm) (r :: rs)
                    = firstMaxAux (Option.some (r.comid, q)) rs from by
                  simp [firstMaxAux, hu, hlt]]
                exact ih _ rfl
              · rw [show firstMaxAux (Option.some mm) (r :: rs)
                    = firstMaxAux (Option.some mm) rs from by
                  simp [firstMaxAux, hu, hlt]]
                exact ih _ rfl

theorem firstMaxAux_isSome_of_mem {γ : Type} :
    ∀ (l : List (RivM γ)) (acc : Option (Int × Rat)) (r : RivM γ), r ∈ l →
    r.uparea.isSome → (firstMaxAux acc l).isSome := by
  intro l
  induction l with
  | nil => intro acc r hr; exact absurd hr (List.not_mem_nil r)
  | cons r0 rs ih =>
      intro acc r hr hu
      rcases List.mem_cons.mp hr with rfl | hr'
      · cases hu0 : r.uparea with
        | none => rw [hu0] at hu; exact absurd hu (by simp)
        | some q =>
            cases hacc : acc with
            | none =>
                subst hacc
                rw [show firstMaxAux Option.none (r :: rs)
                    = firstMaxAux (Option.some (r.comid, q)) rs from by
                  simp [firstMaxAux, hu0]]
                exact firstMaxAux_isSome_of_acc rs _ rfl
            | some mm =>
                subst hacc
                by_cases hlt : mm.2 < q
                · rw [show firstMaxAux (Option.some mm) (r :: rs)
                      = firstMaxAux (Option.some (r.comid, q)) rs from by
                    simp [firstMaxAux, hu0, hlt]]
                  exact firstMaxAux_isSome_of_acc rs _ rfl
                · rw [show firstMaxAux (Option.some mm) (r :: rs)
                      = firstMaxAux (Option.some mm) rs from by
                    simp [firstMaxAux, hu0, hlt]]
                  exact firstMaxAux_isSome_of_acc rs _ rfl
      · cases hu0 : r0.uparea with
        | none =>
            rw [show firstMaxAux acc (r0 :: rs) = firstMaxAux acc rs from by
              simp [firstMaxAux, hu0]]
            exact ih acc r hr' hu
        | some q =>
            cases hacc : acc with
            | none =>
                subst hacc
                rw [show firstMaxAux Option.none (r0 :: rs)
                    = firstMaxAux (Option.some (r0.comid, q)) rs from by
                  simp [firstMaxAux, hu0]]
                exact firstMaxAux_isSome_of_acc rs _ rfl
            | some mm =>
                subst hacc
                by_cases hlt : mm.2 < q
                · rw [show firstMaxAux (Option.some mm) (r0 :: rs)
                      = firstMaxAux (Option.some (r0.comid, q)) rs from by
                    simp [firstMaxAux, hu0, hlt]]
                  exact firstMaxAux_isSome_of_acc rs _ rfl
                · rw [show firstMaxAux (Option.some mm) (r0 :: rs)
                      = firstMaxAux (Option.some mm) rs from by
                    simp [firstMaxAux, hu0, hlt]]
                  exact firstMaxAux_isSome_of_acc rs _ rfl

theorem lakeInflowMark_comid {γ : Type} (rivIds : List Int) (r : RivM γ) :
    (lakeInflowMark rivIds r).comid = r.comid := by
  unfold lakeInflowMark; split <;> rfl

theorem lakeSinkSet_comid {γ : Type} (lkComid : Int) (r : RivM γ) :
    (lakeSinkSet lkComid r).comid = r.comid := by
  unfold lakeSinkSet; split <;> rfl

theorem lakeRetarget_comid {γ : Type} (rivIds : List Int) (comid : Int) (r : RivM γ) :
    (lakeRetarget rivIds comid r).comid = r.comid := by
  unfold lakeRetarget; split <;> rfl

theorem outletFlags_comid {γ : Type} (o : Int) (r : RivM γ) :
    (outletFlags o r).comid = r.comid := by
  unfold outletFlags; split <;> rfl

theorem lakeOutletSet_comid {γ : Type} (lkComid o : Int) (r : RivM γ) :
    (lakeOutletSet lkComid o r).comid = r.comid := by
  unfold lakeOutletSet; split <;> rfl

theorem lakeInflowMark_lakeComid {γ : Type} (rivIds : List Int) (r : RivM γ) :
    (lakeInflowMark rivIds r).lakeComid = r.lakeComid := by
  unfold lakeInflowMark; split <;> rfl

theorem lakeSinkSet_lakeComid {γ : Type} (lkComid : Int) (r : RivM γ) :
    (lakeSinkSet lkComid r).lakeComid = r.lakeComid := by
  unfold lakeSinkSet; split <;> rfl

theorem lakeRetarget_lakeComid {γ : Type} (rivIds : List Int) (comid : Int) (r : RivM γ) :
    (lakeRetarget rivIds comid r).lakeComid = r.lakeComid := by
  unfold lakeRetarget; split <;> rfl

theorem outletFlags_lakeComid {γ : Type} (o : Int) (r : RivM γ) :
    (outletFlags o r).lakeComid = r.lakeComid := by
  unfold outletFlags; split <;> rfl

theorem lakeOutletSet_lakeComid {γ : Type} (lkComid o : Int) (r : RivM γ) :
    (lakeOutletSet lkComid o r).lakeComid = r.lakeComid := by
  unfold lakeOutletSet; split <;> rfl

theorem lakeInflowMark_uparea {γ : Type} (rivIds : List Int) (r : RivM γ) :
    (lakeInflowMark rivIds r).uparea = r.uparea := by
  unfold lakeInflowMark; split <;> rfl

theorem lakeSinkSet_uparea {γ : Type} (lkComid : Int) (r : RivM γ) :
    (lakeSinkSet lkComid r).uparea = r.uparea := by
  unfold lakeSinkSet; split <;> rfl

theorem lakeRetarget_uparea {γ : Type} (rivIds : List Int) (comid : Int) (r : RivM γ) :
    (lakeRetarget rivIds comid r).uparea = r.uparea := by
  unfold lakeRetarget; split <;> rfl

theorem lakeInflowMark_outflow {γ : Type} (rivIds : List Int) (r : RivM γ) :
    (lakeInflowMark rivIds r).outflow = r.outflow := by
  unfold lakeInflowMark; split <;> rfl

theorem lakeSinkSet_outflow {γ : Type} (lkComid : Int) (r : RivM γ) :
    (lakeSinkSet lkComid r).outflow = r.outflow := by
  unfold lakeSinkSet; split <;> rfl

theorem lakeRetarget_outflow {γ : Type} (rivIds : List Int) (comid : Int) (r : RivM γ) :
    (lakeRetarget rivIds comid r).outflow = r.outflow := by
  unfold lakeRetarget; split <;> rfl

theorem lakeRiv3_eq_map {γ : Type} (riv : List (RivM γ)) (lkComid comid : Int)
    (rivIds : List Int) :
    lakeRiv3 riv lkComid comid rivIds
      = riv.map (fun r =>
          lakeRetarget rivIds comid (lakeSinkSet lkComid (lakeInflowMark rivIds r))) := by
  unfold lakeRiv3
  rw [List.map_map, List.map_map]
  rfl

theorem lakeStep_exo_eq {γ : Type} (riv : List (RivM γ)) (lkComid comid : Int)
    (rivIds : List Int) (exo : PyVal)
    (hne : rivIds ≠ []) (hexo : isExhoreicFlag exo = true) :
    lakeStep riv lkComid comid rivIds exo
      = match firstMaxUparea ((lakeRiv3 riv lkComid comid rivIds).filter
            (fun r => decide (r.comid ∈ rivIds))) with
        | Option.none => lakeRiv3 riv lkComid comid rivIds
        | Option.some o =>
            ((lakeRiv3 riv lkComid comid rivIds).map (outletFlags o)).map
              (lakeOutletSet lkComid o) := by
  have h1 : rivIds.isEmpty = false := by
    cases rivIds with
    | nil => exact absurd rfl hne
    | cons a l => rfl
  unfold lakeStep
  rw [h1, hexo]
  simp

theorem lakeStep_endo_eq {γ : Type} (riv : List (RivM γ)) (lkComid comid : Int)
    (rivIds : List Int) (exo : PyVal)
    (hne : rivIds ≠ []) (hexo : isExhoreicFlag exo = false) :
    lakeStep riv lkComid comid rivIds exo = lakeRiv3 riv lkComid comid rivIds := by
  have h1 : rivIds.isEmpty = false := by
    cases rivIds with
    | nil => exact absurd rfl hne
    | cons a l => rfl
  unfold lakeStep
  rw [h1, hexo]
  simp

/-- C2: the per-lake rewiring of an exorheic lake with a non-empty set of
intersecting original segments: every intersecting segment is marked
`inflow = 1` and retargeted at the lake's node id, then the intersecting
segment of maximal upstream area is selected as the designated outlet (its
`inflow` flips to 0 and `outflow` to 1, its retargeted `next` remaining the
lake's id), and the lake row's own `NextDownCOMID` is set to that outlet's
identifier. -/
theorem lake_step_exorheic_correct {γ : Type} (riv : List (RivM γ))
    (lkComid comid : Int) (rivIds : List Int) (exo : PyVal)
    (hne : rivIds ≠ []) (hexo : isExhoreicFlag exo = true)
    (hsome : ∃ r ∈ riv, r.comid ∈ rivIds ∧ r.uparea.isSome)
    (hlk : ∀ r ∈ riv, r.lakeComid = Option.some lkComid → r.comid ∉ rivIds) :
    ∃ o : Int, o ∈ rivIds
      ∧ (∃ ro ∈ riv, ro.comid = o ∧ ∃ qo : Rat, ro.uparea = Option.some qo
          ∧ ∀ r ∈ riv, r.comid ∈ rivIds → ∀ q : Rat, r.uparea = Option.some q → q ≤ qo)
      ∧ (∀ r' ∈ lakeStep riv lkComid comid rivIds exo,
            (r'.comid ∈ rivIds → r'.comid ≠ o →
                r'.inflow = 1 ∧ r'.nextDown = Option.some comid)
          ∧ (r'.comid = o →
                r'.inflow = 0 ∧ r'.outflow = 1 ∧ r'.nextDown = Option.some comid)
          ∧ (r'.lakeComid = Option.some lkComid → r'.nextDown = Option.some o)) := by
  classical
  obtain ⟨rw0, hrwmem, hrwin, hrwup⟩ := hsome
  have hF : ∀ r : RivM γ,
      (lakeRetarget rivIds comid (lakeSinkSet lkComid (lakeInflowMark rivIds r))).comid
        = r.comid := by
    intro r
    rw [lakeRetarget_comid, lakeSinkSet_comid, lakeInflowMark_comid]
  have hFu : ∀ r : RivM γ,
      (lakeRetarget rivIds comid (lakeSinkSet lkComid (lakeInflowMark rivIds r))).uparea
        = r.uparea := by
    intro r
    rw [lakeRetarget_uparea, lakeSinkSet_uparea, lakeInflowMark_uparea]
  have hFl : ∀ r : RivM γ,
      (lakeRetarget rivIds comid (lakeSinkSet lkComid (lakeInflowMark rivIds r))).lakeComid
        = r.lakeComid := by
    intro r
    rw [lakeRetarget_lakeComid, lakeSinkSet_lakeComid, lakeInflowMark_lakeComid]
  have hmem3 : lakeRetarget rivIds comid (lakeSinkSet lkComid (lakeInflowMark rivIds rw0))
      ∈ (lakeRiv3 riv lkComid comid rivIds).filter (fun r => decide (r.comid ∈ rivIds)) := by
    apply List.mem_filter.mpr
    constructor
    · rw [lakeRiv3_eq_map]
      exact List.mem_map.mpr ⟨rw0, hrwmem, rfl⟩
    · rw [hF rw0]
      simpa using hrwin
  have hsome3 : (lakeRetarget rivIds comid
      (lakeSinkSet lkComid (lakeInflowMark rivIds rw0))).uparea.isSome := by
    rw [hFu rw0]; exact hrwup
  have hisSome := firstMaxAux_isSome_of_mem _ Option.none _ hmem3 hsome3
  obtain ⟨m, hm⟩ := Option.isSome_iff_exists.mp hisSome
  obtain ⟨hspec1, hspec2, _⟩ := firstMaxAux_spec _ Option.none m hm
  have hfmx : firstMaxUparea ((lakeRiv3 riv lkComid comid rivIds).filter
      (fun r => decide (r.comid ∈ rivIds))) = Option.some m.1 := by
    unfold firstMaxUparea
    rw [hm]
    rfl
  rcases hspec1 with habs | ⟨r3, hr3mem, hr3c, hr3u⟩
  · exact absurd habs (by simp)
  have hr3in : r3.comid ∈ rivIds := by
    have := (List.mem_filter.mp hr3mem).2
    simpa using this
  have hr3riv : ∃ r0 ∈ riv, lakeRetarget rivIds comid
      (lakeSinkSet lkComid (lakeInflowMark rivIds r0)) = r3 := by
    have := (List.mem_filter.mp hr3mem).1
    rw [lakeRiv3_eq_map] at this
    exact List.mem_map.mp this
  obtain ⟨r0, hr0mem, hr0eq⟩ := hr3riv
  refine ⟨m.1, by rw [← hr3c]; exact hr3in, ?_, ?_⟩
  · refine ⟨r0, hr0mem, ?_, m.2, ?_, ?_⟩
    · rw [← hr3c, ← hr0eq, hF r0]
    · rw [← hr3u, ← hr0eq, hFu r0]
    · intro r hrm hin q hq
      have hFq : (lakeRetarget rivIds comid
          (lakeSinkSet lkComid (lakeInflowMark rivIds r))).uparea = Option.some q := by
        rw [hFu r]; exact hq
      apply hspec2 _ ?_ q hFq
      apply List.mem_filter.mpr
      constructor
      · rw [lakeRiv3_eq_map]
        exact List.mem_map.mpr ⟨r, hrm, rfl⟩
      · rw [hF r]
        simpa using hin
  · intro r' hr'
    rw [lakeStep_exo_eq riv lkComid comid rivIds exo hne hexo, hfmx] at hr'
    have hr2 : r' ∈ ((lakeRiv3 riv lkComid comid rivIds).map (outletFlags m.1)).map
        (lakeOutletSet lkComid m.1) := hr'
    rw [lakeRiv3_eq_map, List.map_map, List.map_map] at hr2
    rcases List.mem_map.mp hr2 with ⟨r, hrmem, hreq0⟩
    have hreq : lakeOutletSet lkComid m.1 (outletFlags m.1
        (lakeRetarget rivIds comid (lakeSinkSet lkComid (lakeInflowMark rivIds r)))) = r' :=
      hreq0
    have hrcomid : r'.comid = r.comid := by
      rw [← hreq, lakeOutletSet_comid, outletFlags_comid, hF r]
    have hrlake : r'.lakeComid = r.lakeComid := by
      rw [← hreq, lakeOutletSet_lakeComid, outletFlags_lakeComid, hFl r]
    refine ⟨?_, ?_, ?_⟩
    · intro hin hno
      rw [hrcomid] at hin hno
      have hlknot : ¬ r.lakeComid = Option.some lkComid := by
        intro hcon
        exact hlk r hrmem hcon hin
      have hval : r' = { r with inflow := 1, nextDown := Option.some comid } := by
        rw [← hreq]
        simp [lakeInflowMark, lakeSinkSet, lakeRetarget, outletFlags, lakeOutletSet,
          hin, hno, hlknot]
      rw [hval]
      exact ⟨rfl, rfl⟩
    · intro ho
      rw [hrcomid] at ho
      have hin : r.comid ∈ rivIds := by rw [ho, ← hr3c]; exact hr3in
      have hlknot : ¬ r.lakeComid = Option.some lkComid := by
        intro hcon
        exact hlk r hrmem hcon hin
      have hm1 : m.1 ∈ rivIds := ho ▸ hin
      have hval : r'
          = { r with inflow := 0, outflow := 1, nextDown := Option.some comid } := by
        rw [← hreq]
        simp [lakeInflowMark, lakeSinkSet, lakeRetarget, outletFlags, lakeOutletSet,
          hin, hm1, ho, hlknot]
      rw [hval]
      exact ⟨rfl, rfl, rfl⟩
    · intro hlc
      rw [hrlake] at hlc
      rw [← hreq]
      have hpres : (outletFlags m.1 (lakeRetarget rivIds comid
          (lakeSinkSet lkComid (lakeInflowMark rivIds r)))).lakeComid = r.lakeComid := by
        rw [outletFlags_lakeComid, hFl r]
      unfold lakeOutletSet
      rw [if_pos (by rw [hpres]; simpa using hlc)]

/-- C2 witness: the spec's `[10, 50, 20]` example — the theorem applies, and
concretely the outlet is segment 2 (area 50): it ends with `inflow = 0`,
`outflow = 1` and `next = 100` (the lake node), segments 1 and 3 end with
`inflow = 1` and `next = 100`, and the lake row ends pointing at 2. -/
theorem lake_step_exorheic_correct_witness :
    isExhoreicFlag (PyVal.num 1) = true
    ∧ (lakeStep c2riv 7 100 c2ids (PyVal.num 1)).map
        (fun r => (r.comid, r.inflow, r.outflow, r.nextDown))
      = [(1, 1, 0, Option.some 100), (2, 0, 1, Option.some 100),
         (3, 1, 0, Option.some 100), (100, 0, 0, Option.some 2)]
    ∧ ∃ o : Int, o ∈ c2ids
      ∧ (∃ ro ∈ c2riv, ro.comid = o ∧ ∃ qo : Rat, ro.uparea = Option.some qo
          ∧ ∀ r ∈ c2riv, r.comid ∈ c2ids → ∀ q : Rat, r.uparea = Option.some q → q ≤ qo)
      ∧ (∀ r' ∈ lakeStep c2riv 7 100 c2ids (PyVal.num 1),
            (r'.comid ∈ c2ids → r'.comid ≠ o →
                r'.inflow = 1 ∧ r'.nextDown = Option.some 100)
          ∧ (r'.comid = o →
                r'.inflow = 0 ∧ r'.outflow = 1 ∧ r'.nextDown = Option.some 100)
          ∧ (r'.lakeComid = Option.some 7 → r'.nextDown = Option.some o)) :=
  ⟨by decide, by decide,
   lake_step_exorheic_correct c2riv 7 100 c2ids (PyVal.num 1)
     (by decide) (by decide) (by decide) (by decide)⟩

/-- C7: a lake whose `exorheic` attribute does not coerce to the number 1 —
`None`/missing, NaN, an unparseable string such as `"abc"`, or any other
value — is treated as endorheic: the lake row's `NextDownCOMID` is set to the
`-9999` terminal sentinel regardless of the touching segments' areas, every
intersecting segment gets `inflow = 1` (retargeted at the lake), and — the
table entering the loop having all `outflow = 0` — no segment ends with
`outflow = 1`. -/
theorem lake_step_endorheic_correct {γ : Type} (riv : List (RivM γ))
    (lkComid comid : Int) (rivIds : List Int) (exo : PyVal)
    (hne : rivIds ≠ []) (hexo : isExhoreicFlag exo = false)
    (hlk : ∀ r ∈ riv, r.lakeComid = Option.some lkComid → r.comid ∉ rivIds)
    (hout0 : ∀ r ∈ riv, r.outflow = 0) :
    (isExhoreicFlag PyVal.none = false
     ∧ isExhoreicFlag PyVal.nan = false
     ∧ isExhoreicFlag (PyVal.str Option.none) = false
     ∧ (∀ q : Rat, q ≠ 1 → isExhoreicFlag (PyVal.num q) = false)
     ∧ (∀ q : Rat, q ≠ 1 → isExhoreicFlag (PyVal.str (Option.some q)) = false))
    ∧ (∀ r' ∈ lakeStep riv lkComid comid rivIds exo,
          (r'.lakeComid = Option.some lkComid → r'.nextDown = Option.some (-9999))
        ∧ (r'.comid ∈ rivIds → r'.inflow = 1 ∧ r'.nextDown = Option.some comid)
        ∧ r'.outflow = 0) := by
  refine ⟨⟨rfl, rfl, rfl, ?_, ?_⟩, ?_⟩
  · intro q hq
    simp [isExhoreicFlag, hq]
  · intro q hq
    simp [isExhoreicFlag, hq]
  · intro r' hr'
    rw [lakeStep_endo_eq riv lkComid comid rivIds exo hne hexo,
      lakeRiv3_eq_map] at hr'
    rcases List.mem_map.mp hr' with ⟨r, hrmem, hreq⟩
    have hrcomid : r'.comid = r.comid := by
      rw [← hreq, lakeRetarget_comid, lakeSinkSet_comid, lakeInflowMark_comid]
    have hrlake : r'.lakeComid = r.lakeComid := by
      rw [← hreq, lakeRetarget_lakeComid, lakeSinkSet_lakeComid, lakeInflowMark_lakeComid]
    refine ⟨?_, ?_, ?_⟩
    · intro hlc
      rw [hrlake] at hlc
      have hnin : r.comid ∉ rivIds := hlk r hrmem hlc
      have hval : r' = { r with nextDown := Option.some (-9999) } := by
        rw [← hreq]
        simp [lakeInflowMark, lakeSinkSet, lakeRetarget, hlc, hnin]
      rw [hval]
    · intro hin
      rw [hrcomid] at hin
      have hlknot : ¬ r.lakeComid = Option.some lkComid := by
        intro hcon
        exact hlk r hrmem hcon hin
      have hval : r' = { r with inflow := 1, nextDown := Option.some comid } := by
        rw [← hreq]
        simp [lakeInflowMark, lakeSinkSet, lakeRetarget, hin, hlknot]
      rw [hval]
      exact ⟨rfl, rfl⟩
    · have hof : r'.outflow = r.outflow := by
        rw [← hreq, lakeRetarget_outflow, lakeSinkSet_outflow, lakeInflowMark_outflow]
      rw [hof]
      exact hout0 r hrmem

/-- C7 witness: the same lake/river geometry with `exorheic = "abc"` (an
unparseable string): the lake row ends with `next = -9999`, segments 1–3 end
with `inflow = 1`, `next = 100`, and nobody gets `outflow = 1`. -/
theorem lake_step_endorheic_correct_witness :
    isExhoreicFlag (PyVal.str Option.none) = false
    ∧ (lakeStep c2riv 7 100 c2ids (PyVal.str Option.none)).map
        (fun r => (r.comid, r.inflow, r.outflow, r.nextDown))
      = [(1, 1, 0, Option.some 100), (2, 1, 0, Option.some 100),
         (3, 1, 0, Option.some 100), (100, 0, 0, Option.some (-9999))]
    ∧ (∀ r' ∈ lakeStep c2riv 7 100 c2ids (PyVal.str Option.none),
          (r'.lakeComid = Option.some 7 → r'.nextDown = Option.some (-9999))
        ∧ (r'.comid ∈ c2ids → r'.inflow = 1 ∧ r'.nextDown = Option.some 100)
        ∧ r'.outflow = 0) :=
  ⟨by decide, by decide,
   (lake_step_endorheic_correct c2riv 7 100 c2ids (PyVal.str Option.none)
     (by decide) (by decide) (by decide) (by decide)).2⟩

/-! ### Claim theorem for lake ordering and identifier assignment -/

theorem keyLE_total (x y : Option Rat) : keyLE x y = true ∨ keyLE y x = true := by
  cases x <;> cases y <;> simp [keyLE] <;> exact le_total _ _

theorem keyLE_trans {x y z : Option Rat} (h1 : keyLE x y = true)
    (h2 : keyLE y z = true) : keyLE x z = true := by
  cases x <;> cases y <;> cases z <;> simp_all [keyLE] <;> exact le_trans h1 h2

theorem mem_le_maxD (l : List Int) (c : Int) (hc : c ∈ l) : c ≤ (l.max?).getD 0 := by
  rw [List.getD_max?_eq_unbot'_maximum]
  have h := List.le_maximum_of_mem' hc
  cases hm : l.maximum with
  | bot => rw [hm] at h; exact absurd h (by simp)
  | coe m =>
      rw [hm] at h
      simpa using h

theorem sortLakes_perm {γ : Type} (lakeRiv : List LRInt) (lakes : List (LakeR γ)) :
    (sortLakes lakeRiv lakes).Perm lakes := by
  unfold sortLakes
  split
  · exact List.Perm.refl lakes
  · exact List.perm_insertionSort _ lakes

theorem sortLakes_length {γ : Type} (lakeRiv : List LRInt) (lakes : List (LakeR γ)) :
    (sortLakes lakeRiv lakes).length = lakes.length :=
  (sortLakes_perm lakeRiv lakes).length_eq

theorem sortLakes_sorted {γ : Type} (lakeRiv : List LRInt) (lakes : List (LakeR γ)) :
    List.Sorted (fun a b : LakeR γ =>
        keyLE (lakeMaxUp lakeRiv a.lakeComid) (lakeMaxUp lakeRiv b.lakeComid) = true)
      (sortLakes lakeRiv lakes) := by
  unfold sortLakes
  split
  · rename_i hempty
    have hkey : ∀ lk : Int, lakeMaxUp lakeRiv lk = Option.none := by
      intro lk
      have : lakeRiv = [] := by
        cases lakeRiv with
        | nil => rfl
        | cons a l => exact absurd hempty (by simp)
      rw [this]
      rfl
    apply List.pairwise_of_forall_mem_list
    intro a _ b _
    rw [hkey, hkey]
    rfl
  · haveI : IsTotal (LakeR γ) (fun a b =>
        keyLE (lakeMaxUp lakeRiv a.lakeComid) (lakeMaxUp lakeRiv b.lakeComid) = true) :=
      ⟨fun a b => keyLE_total _ _⟩
    haveI : IsTrans (LakeR γ) (fun a b =>
        keyLE (lakeMaxUp lakeRiv a.lakeComid) (lakeMaxUp lakeRiv b.lakeComid) = true) :=
      ⟨fun _ _ _ => keyLE_trans⟩
    exact List.sorted_insertionSort _ lakes

/-- C6: before insertion the lakes are sorted ascending by the maximum
upstream area of their intersecting river segments (`keyLE` places lakes
with no intersecting segment last, their key being `float("inf")`), and
each lake, in that sorted order, receives consecutive identifiers
`maxCOMID + 1, maxCOMID + 2, …` starting one above the largest river or
catchment COMID — so every lake identifier is strictly greater than every
pre-existing river or catchment identifier. -/
theorem lake_sort_assign_correct {γ : Type} (lakeRiv : List LRInt)
    (rivIds catIds : List Int) (lakes : List (LakeR γ)) :
    ((sortAndAssign lakeRiv rivIds catIds lakes).map Prod.snd
        = (List.range lakes.length).map
            (fun i : Nat => maxCid rivIds catIds + 1 + (i : Int)))
    ∧ (∀ p ∈ sortAndAssign lakeRiv rivIds catIds lakes,
        (∀ c ∈ rivIds, c < p.2) ∧ (∀ c ∈ catIds, c < p.2))
    ∧ ((sortAndAssign lakeRiv rivIds catIds lakes).map Prod.fst).Perm lakes
    ∧ List.Sorted (fun a b : LakeR γ =>
          keyLE (lakeMaxUp lakeRiv a.lakeComid) (lakeMaxUp lakeRiv b.lakeComid) = true)
        ((sortAndAssign lakeRiv rivIds catIds lakes).map Prod.fst) := by
  have hfst : (sortAndAssign lakeRiv rivIds catIds lakes).map Prod.fst
      = sortLakes lakeRiv lakes := by
    unfold sortAndAssign assignLakeComids
    rw [List.map_map]
    have : (Prod.fst ∘ fun p : Nat × LakeR γ =>
        (p.2, maxCid rivIds catIds + 1 + (p.1 : Int))) = Prod.snd := rfl
    rw [this, List.enum_map_snd]
  refine ⟨?_, ?_, ?_, ?_⟩
  · unfold sortAndAssign assignLakeComids
    rw [List.map_map]
    have hcomp : (Prod.snd ∘ fun p : Nat × LakeR γ =>
        (p.2, maxCid rivIds catIds + 1 + (p.1 : Int)))
        = fun p : Nat × LakeR γ => maxCid rivIds catIds + 1 + (p.1 : Int) := rfl
    rw [hcomp, List.enum_eq_zip_range]
    have hlen : (List.range (sortLakes lakeRiv lakes).length).length
        = (sortLakes lakeRiv lakes).length := List.length_range _
    have : ((List.range (sortLakes lakeRiv lakes).length).zip
          (sortLakes lakeRiv lakes)).map
          (fun p : Nat × LakeR γ => maxCid rivIds catIds + 1 + (p.1 : Int))
        = ((List.range (sortLakes lakeRiv lakes).length).zip
            (sortLakes lakeRiv lakes)).map
          ((fun i : Nat => maxCid rivIds catIds + 1 + (i : Int)) ∘ Prod.fst) := rfl
    rw [this, ← List.map_map, List.map_fst_zip _ _ (le_of_eq hlen),
      sortLakes_length]
  · intro p hp
    unfold sortAndAssign assignLakeComids at hp
    rcases List.mem_map.mp hp with ⟨q, _, hq⟩
    have hp2 : p.2 = maxCid rivIds catIds + 1 + (q.1 : Int) := by
      rw [← hq]
    have hq1 : (0 : Int) ≤ (q.1 : Int) := Int.ofNat_nonneg q.1
    constructor
    · intro c hc
      have h1 : c ≤ (rivIds.max?).getD 0 := mem_le_maxD rivIds c hc
      have h2 : (rivIds.max?).getD 0 ≤ maxCid rivIds catIds := le_max_left _ _
      omega
    · intro c hc
      have h1 : c ≤ (catIds.max?).getD 0 := mem_le_maxD catIds c hc
      have h2 : (catIds.max?).getD 0 ≤ maxCid rivIds catIds := le_max_right _ _
      omega
  · rw [hfst]
    exact sortLakes_perm lakeRiv lakes
  · rw [hfst]
    exact sortLakes_sorted lakeRiv lakes

/-! ### Claim theorem for the river geometry shrink correction -/

theorem applyRivRatio_islake_comid {γ : Type} (e : Option (RivCorr γ))
    (valid : γ → Bool) (r : RivM γ) :
    (applyRivRatio e valid r).islake = r.islake
    ∧ (applyRivRatio e valid r).comid = r.comid := by
  cases e with
  | none => exact ⟨rfl, rfl⟩
  | some c =>
      show (applyRivRatio (Option.some c) valid r).islake = r.islake
        ∧ (applyRivRatio (Option.some c) valid r).comid = r.comid
      simp only [applyRivRatio]
      by_cases h0 : c.lengthRatio = 0
      · rw [if_pos h0]; exact ⟨rfl, rfl⟩
      · rw [if_neg h0]
        by_cases h1 : c.lengthRatio < 1
        · rw [if_pos h1]
          cases c.geom with
          | none => exact ⟨rfl, rfl⟩
          | some g0 =>
              by_cases hv : valid g0 = true <;> simp [hv]
        · rw [if_neg h1]; exact ⟨rfl, rfl⟩

/-- C8: row by row, the length-shrink ratio equals
`clip(1 − submerged/original, 0, 1)` with `submerged` the sum of this
segment's intersection lengths over all lakes; a ratio of 0 ends with null
geometry and length 0; a ratio strictly between 0 and 1 ends with the
difference geometry and the length scaled by the ratio; a ratio of 1 leaves
the row unchanged.  And in the application loop, rows flagged `islake`
receive the lake's own (valid) geometry, overriding any shrink
correction. -/
theorem riv_geometry_shrink_correct {γ : Type} (glen : γ → Rat) (riv : List (GRiv γ))
    (rivInt : List (Int × Rat)) (diffMap : Int → Option γ) (hne : rivInt ≠ []) :
    List.Forall₂ (fun (r : GRiv γ) (c : RivCorr γ) =>
        (fun ratio =>
          c.comid = r.comid
          ∧ c.lengthRatio = ratio
          ∧ (ratio = 0 → c.geom = Option.none ∧ c.length = 0)
          ∧ (0 < ratio → ratio < 1 →
              c.geom = diffMap r.comid ∧ c.length = r.length * ratio)
          ∧ (ratio = 1 → c.geom = Option.some r.geom ∧ c.length = r.length))
        (min 1 (max 0 (1 - ((rivInt.filter (fun p => p.1 == r.comid)).map
            (fun p => p.2)).sum / glen r.geom))))
      riv (rivGeometryCorrection glen riv rivInt diffMap)
    ∧ (∀ (riv2 : List (RivM γ)) (corr2 : List (RivCorr γ))
          (lakeMap : Int → Option γ) (valid : γ → Bool),
        List.Forall₂ (fun (r : RivM γ) (c : RivM γ) =>
            r.islake = 1 → ∀ g : γ, lakeMap r.comid = Option.some g →
            valid g = true → c.geom = Option.some g)
          riv2 (applyRivCorr riv2 corr2 lakeMap valid)) := by
  constructor
  · unfold rivGeometryCorrection
    rw [if_neg (by simpa using hne)]
    rw [List.forall₂_map_right_iff]
    apply List.forall₂_same.mpr
    intro r _
    refine ⟨rfl, rfl, ?_, ?_, ?_⟩
    · intro h0
      refine ⟨?_, ?_⟩
      · show (if (min 1 (max 0 (1 - ((rivInt.filter (fun p => p.1 == r.comid)).map
            (fun p => p.2)).sum / glen r.geom)) : Rat) = 0 then Option.none
            else if (min 1 (max 0 (1 - ((rivInt.filter (fun p => p.1 == r.comid)).map
              (fun p => p.2)).sum / glen r.geom)) : Rat) < 1 then diffMap r.comid
            else Option.some r.geom) = Option.none
        rw [if_pos h0]
      · show r.length * (min 1 (max 0 (1 - ((rivInt.filter
            (fun p => p.1 == r.comid)).map (fun p => p.2)).sum / glen r.geom))) = 0
        rw [h0, mul_zero]
    · intro hpos hlt
      refine ⟨?_, rfl⟩
      show (if (min 1 (max 0 (1 - ((rivInt.filter (fun p => p.1 == r.comid)).map
          (fun p => p.2)).sum / glen r.geom)) : Rat) = 0 then Option.none
          else if (min 1 (max 0 (1 - ((rivInt.filter (fun p => p.1 == r.comid)).map
            (fun p => p.2)).sum / glen r.geom)) : Rat) < 1 then diffMap r.comid
          else Option.some r.geom) = diffMap r.comid
      rw [if_neg (ne_of_gt hpos), if_pos hlt]
    · intro h1
      refine ⟨?_, ?_⟩
      · show (if (min 1 (max 0 (1 - ((rivInt.filter (fun p => p.1 == r.comid)).map
            (fun p => p.2)).sum / glen r.geom)) : Rat) = 0 then Option.none
            else if (min 1 (max 0 (1 - ((rivInt.filter (fun p => p.1 == r.comid)).map
              (fun p => p.2)).sum / glen r.geom)) : Rat) < 1 then diffMap r.comid
            else Option.some r.geom) = Option.some r.geom
        rw [if_neg (by rw [h1]; norm_num), if_neg (by rw [h1]; exact lt_irrefl 1)]
      · show r.length * (min 1 (max 0 (1 - ((rivInt.filter
            (fun p => p.1 == r.comid)).map (fun p => p.2)).sum / glen r.geom)))
          = r.length
        rw [h1, mul_one]
  · intro riv2 corr2 lakeMap valid
    unfold applyRivCorr
    rw [List.forall₂_map_right_iff]
    apply List.forall₂_same.mpr
    intro r _ hlake g hg hv
    have hpres := applyRivRatio_islake_comid
      ((corr2.filter (fun c => decide (c.lengthRatio < 1))).reverse.find?
        (fun c => c.comid == r.comid)) valid r
    have hc : ((applyRivRatio ((corr2.filter
        (fun c => decide (c.lengthRatio < 1))).reverse.find?
        (fun c => c.comid == r.comid)) valid r).islake == (1 : Int)) = true := by
      rw [hpres.1, hlake]
      rfl
    have hm : lakeMap (applyRivRatio ((corr2.filter
        (fun c => decide (c.lengthRatio < 1))).reverse.find?
        (fun c => c.comid == r.comid)) valid r).comid = Option.some g := by
      rw [hpres.2]
      exact hg
    unfold applyLakeGeom
    rw [if_pos hc, hm]
    simp [hv]

theorem riv_geometry_shrink_correct_witness :
    ([((2 : Int), (1 : Rat))] : List (Int × Rat)) ≠ []
    ∧ (List.Forall₂ (fun (r : GRiv Int) (c : RivCorr Int) =>
        (fun ratio =>
          c.comid = r.comid
          ∧ c.lengthRatio = ratio
          ∧ (ratio = 0 → c.geom = Option.none ∧ c.length = 0)
          ∧ (0 < ratio → ratio < 1 →
              c.geom = (fun _ : Int => (Option.none : Option Int)) r.comid
              ∧ c.length = r.length * ratio)
          ∧ (ratio = 1 → c.geom = Option.some r.geom ∧ c.length = r.length))
        (min 1 (max 0 (1 - ((([((2 : Int), (1 : Rat))] : List (Int × Rat)).filter
            (fun p => p.1 == r.comid)).map
            (fun p => p.2)).sum / (fun _ : Int => (1 : Rat)) r.geom))))
      [({ comid := 1, geom := (0 : Int), length := 10 } : GRiv Int)]
      (rivGeometryCorrection (fun _ : Int => (1 : Rat))
        [({ comid := 1, geom := (0 : Int), length := 10 } : GRiv Int)]
        [((2 : Int), (1 : Rat))] (fun _ : Int => (Option.none : Option Int)))
    ∧ (∀ (riv2 : List (RivM Int)) (corr2 : List (RivCorr Int))
          (lakeMap : Int → Option Int) (valid : Int → Bool),
        List.Forall₂ (fun (r : RivM Int) (c : RivM Int) =>
            r.islake = 1 → ∀ g : Int, lakeMap r.comid = Option.some g →
            valid g = true → c.geom = Option.some g)
          riv2 (applyRivCorr riv2 corr2 lakeMap valid))) :=
  ⟨by decide, riv_geometry_shrink_correct (fun _ : Int => (1 : Rat))
    [({ comid := 1, geom := (0 : Int), length := 10 } : GRiv Int)]
    [((2 : Int), (1 : Rat))] (fun _ : Int => (Option.none : Option Int)) (by decide)⟩


/-! ### The zero-lakes run of the topology correction -/

theorem dictLookup_map_self {α β : Type} (key : β → Int) (val : β → α) :
    ∀ (l : List β), (l.map key).Nodup → ∀ c0 ∈ l,
      dictLookup (l.map (fun c => (key c, val c))) (key c0) = Option.some (val c0) := by
  intro l
  induction l with
  | nil => intro _ c0 hc; exact absurd hc (List.not_mem_nil c0)
  | cons c tl ih =>
      intro hnd c0 hc
      have hnd2 : (tl.map key).Nodup := (List.nodup_cons.mp hnd).2
      have hkc : key c ∉ tl.map key := (List.nodup_cons.mp hnd).1
      unfold dictLookup
      rw [List.map_cons, List.reverse_cons, List.find?_append]
      rcases List.mem_cons.mp hc with hceq | hctl
      · have hnone : (tl.map (fun c => (key c, val c))).reverse.find?
            (fun p => p.1 == key c0) = Option.none := by
          rw [List.find?_eq_none]
          intro p hp hb
          obtain ⟨x, hx, hpx⟩ := List.mem_map.mp (List.mem_reverse.mp hp)
          have hx1 : key x = key c0 := by
            rw [← hpx] at hb
            simpa using hb
          exact hkc (hceq ▸ hx1 ▸ List.mem_map_of_mem key hx)
        rw [hnone, hceq]
        simp
      · have htl := ih hnd2 c0 hctl
        unfold dictLookup at htl
        cases hf : (tl.map (fun c => (key c, val c))).reverse.find?
            (fun p => p.1 == key c0) with
        | none => rw [hf] at htl; simp at htl
        | some p =>
            rw [hf] at htl
            simpa using htl

theorem catGeometryCorrection_self {γ : Type} (areaF : γ → Rat) (cat : List (GCat γ))
    (hnd : (cat.map (fun c => c.comid)).Nodup)
    (ha : ∀ c ∈ cat, areaF c.geom ≠ 0) :
    catGeometryCorrection areaF cat (cat.map (fun c => (c.comid, c.geom)))
      = cat.map (fun c =>
          ({ comid := c.comid, geom := Option.some c.geom,
             unitarea := c.unitarea, areaRatio := 1 } : CatCorr γ)) := by
  unfold catGeometryCorrection
  apply List.map_congr_left
  intro c hc
  have hd : dictLookup (cat.map (fun c => (c.comid, c.geom))) c.comid
      = Option.some c.geom :=
    dictLookup_map_self (fun c => c.comid) (fun c => c.geom) cat hnd c hc
  have hr : ((Option.some c.geom).map areaF).getD 0 / areaF c.geom = 1 := by
    show areaF c.geom / areaF c.geom = 1
    exact div_self (ha c hc)
  simp only [hd, hr]
  rw [if_neg (by norm_num), if_neg (by norm_num : ¬ (1 : Rat) = 0), mul_one]

theorem applyRivCorr_id {γ : Type} (rows : List (RivM γ)) (corr : List (RivCorr γ))
    (lakeMap : Int → Option γ) (valid : γ → Bool)
    (hc : ∀ c ∈ corr, ¬ c.lengthRatio < 1) (hr : ∀ r ∈ rows, r.islake = 0) :
    applyRivCorr rows corr lakeMap valid = rows := by
  have hf : corr.filter (fun c => decide (c.lengthRatio < 1)) = [] := by
    rw [List.filter_eq_nil_iff]
    intro c hcm
    simpa using hc c hcm
  show rows.map (fun r =>
      applyLakeGeom lakeMap valid
        (applyRivRatio ((corr.filter (fun c => decide (c.lengthRatio < 1))).reverse.find?
          (fun c => c.comid == r.comid)) valid r)) = rows
  have hpt : ∀ r ∈ rows,
      applyLakeGeom lakeMap valid
        (applyRivRatio ((corr.filter (fun c => decide (c.lengthRatio < 1))).reverse.find?
          (fun c => c.comid == r.comid)) valid r) = r := by
    intro r hrm
    rw [hf]
    show applyLakeGeom lakeMap valid r = r
    unfold applyLakeGeom
    rw [hr r hrm, if_neg (by decide)]
  rw [List.map_congr_left hpt]
  exact List.map_id rows

theorem applyCatCorr_id {γ : Type} (cat : List (GCat γ)) (valid : γ → Bool)
    (hnd : (cat.map (fun c => c.comid)).Nodup) :
    applyCatCorr
        (cat.map (fun c =>
          ({ comid := c.comid, unitarea := c.unitarea,
             geom := Option.some c.geom, islake := 0 } : CatM γ)))
        (cat.map (fun c =>
          ({ comid := c.comid, geom := Option.some c.geom,
             unitarea := c.unitarea, areaRatio := 1 } : CatCorr γ)))
        valid
      = cat.map (fun c =>
          ({ comid := c.comid, unitarea := c.unitarea,
             geom := Option.some c.geom, islake := 0 } : CatM γ)) := by
  unfold applyCatCorr
  rw [List.map_map]
  apply List.map_congr_left
  intro c hc
  have h1 : dictLookup (cat.map (fun x => (x.comid, (1 : Rat)))) c.comid
      = Option.some 1 :=
    dictLookup_map_self (fun x : GCat γ => x.comid) (fun _ => (1 : Rat)) cat hnd c hc
  have h2 : dictLookup (cat.map (fun x => (x.comid,
        (Option.some x.geom : Option γ)))) c.comid
      = Option.some (Option.some c.geom) :=
    dictLookup_map_self (fun x : GCat γ => x.comid)
      (fun x => (Option.some x.geom : Option γ)) cat hnd c hc
  have h3 : dictLookup (cat.map (fun x => (x.comid, x.unitarea))) c.comid
      = Option.some c.unitarea :=
    dictLookup_map_self (fun x : GCat γ => x.comid) (fun x => x.unitarea) cat hnd c hc
  simp only [Function.comp_def, List.map_map, h1, h2, h3, Option.getD_some]
  norm_num

/-- The zero-lakes run of `_riv_topology_correction`, in closed form: with an
empty lake table (hence empty overlays, and the catchment difference equal to
the catchments themselves), no lake row is created, the catchment table is
returned as-is, and every river row keeps its COMID, downstream id, length
and geometry with zero `islake`/`inflow`/`outflow`/`inoutflow` flags — but
its `unitarea` is replaced by the catchment `unitarea` of the same COMID
(0 when absent), and `uparea`/`up*`/`maxup` are recomputed from that. -/
theorem rivTopologyCorrection_no_lakes {γ : Type} (glen areaF : γ → Rat)
    (valid : γ → Bool) (riv : List (RivIn γ)) (cat : List (GCat γ))
    (rivDiffMap : Int → Option γ)
    (hnd : (cat.map (fun c => c.comid)).Nodup)
    (ha : ∀ c ∈ cat, areaF c.geom ≠ 0) :
    rivTopologyCorrection glen areaF valid riv cat [] [] [] rivDiffMap
        (cat.map (fun c => (c.comid, c.geom)))
      = (riv.map (fun r =>
          ({ comid := r.comid, lakeComid := Option.none, nextDown := r.nextDown,
             length := Option.some r.length,
             unitarea := (dictLookup (cat.map (fun c => (c.comid, c.unitarea)))
               r.comid).getD 0,
             uparea := upareaOf (riv.map (fun r2 =>
               ({ comid := r2.comid, nextDown := r2.nextDown,
                  unitarea := Option.some ((dictLookup (cat.map (fun c =>
                    (c.comid, c.unitarea))) r2.comid).getD 0) } : URow))) r.comid,
             geom := Option.some r.geom, islake := 0, inflow := 0, outflow := 0,
             inoutflow := 0,
             ups := immediateUps (riv.map (fun r2 =>
               ({ comid := r2.comid, lakeComid := Option.none,
                  nextDown := r2.nextDown, length := Option.some r2.length,
                  unitarea := Option.some ((dictLookup (cat.map (fun c =>
                    (c.comid, c.unitarea))) r2.comid).getD 0),
                  uparea := r2.uparea, geom := Option.some r2.geom, islake := 0,
                  inflow := 0, outflow := 0 } : RivM γ))) r.comid,
             maxup := (immediateUps (riv.map (fun r2 =>
               ({ comid := r2.comid, lakeComid := Option.none,
                  nextDown := r2.nextDown, length := Option.some r2.length,
                  unitarea := Option.some ((dictLookup (cat.map (fun c =>
                    (c.comid, c.unitarea))) r2.comid).getD 0),
                  uparea := r2.uparea, geom := Option.some r2.geom, islake := 0,
                  inflow := 0, outflow := 0 } : RivM γ))) r.comid).length } : RivOut γ)),
         cat.map (fun c =>
           ({ comid := c.comid, unitarea := c.unitarea,
              geom := Option.some c.geom, islake := 0 } : CatM γ)),
         ([] : List (LakeR γ × Int))) := by
  have e1 := catGeometryCorrection_self areaF cat hnd ha
  have e2 : rivGeometryCorrection glen (riv.map (fun r =>
        ({ comid := r.comid, geom := r.geom, length := r.length } : GRiv γ)))
        [] rivDiffMap
      = riv.map (fun r =>
          ({ comid := r.comid, geom := Option.some r.geom,
             length := r.length, lengthRatio := 1 } : RivCorr γ)) := by
    unfold rivGeometryCorrection
    rw [if_pos (by decide : ([] : List (Int × Rat)).isEmpty = true), List.map_map]
    rfl
  unfold rivTopologyCorrection
  rw [e1, e2]
  rw [show sortAndAssign ([] : List LRInt) (riv.map (fun r => r.comid))
      (cat.map (fun c => c.comid)) ([] : List (LakeR γ)) = [] from rfl]
  simp only [List.map_nil, List.append_nil, List.foldl_nil]
  rw [applyRivCorr_id (riv.map (fun r => (⟨r.comid, Option.none, r.nextDown,
        Option.some r.length, r.unitarea, r.uparea, Option.some r.geom,
        0, 0, 0⟩ : RivM γ)))
      (riv.map (fun r =>
        ({ comid := r.comid, geom := Option.some r.geom,
           length := r.length, lengthRatio := 1 } : RivCorr γ)))
      (fun cid => dictLookup ([] : List (Int × γ)) cid) valid
      (by
        intro c hcm
        obtain ⟨r, hrm, hcr⟩ := List.mem_map.mp hcm
        rw [← hcr]
        exact lt_irrefl 1)
      (by
        intro r hrm
        obtain ⟨r0, hr0, hr0e⟩ := List.mem_map.mp hrm
        rw [← hr0e])]
  rw [applyCatCorr_id cat valid hnd]
  simp only [List.map_map]
  rfl


/-- C9 (corrected): with an empty lake table the rewrite keeps every row
(no node gained or lost), every `next_id`, geometry and length, returns the
catchment table unchanged, and adds all-zero
`islake`/`inflow`/`outflow`/`inoutflow` flags — but each river row's
`unitarea` is NOT kept: it is overwritten with the catchment `unitarea` of
the same COMID (0 when the COMID has no catchment), before `uparea` and the
`up*`/`maxup` columns are recomputed. -/
theorem riv_topology_zero_lakes_correct {γ : Type} (glen areaF : γ → Rat)
    (valid : γ → Bool) (riv : List (RivIn γ)) (cat : List (GCat γ))
    (rivDiffMap : Int → Option γ)
    (hnd : (cat.map (fun c => c.comid)).Nodup)
    (ha : ∀ c ∈ cat, areaF c.geom ≠ 0) :
    (rivTopologyCorrection glen areaF valid riv cat [] [] [] rivDiffMap
        (cat.map (fun c => (c.comid, c.geom)))).2.2 = []
    ∧ (rivTopologyCorrection glen areaF valid riv cat [] [] [] rivDiffMap
        (cat.map (fun c => (c.comid, c.geom)))).2.1
      = cat.map (fun c =>
          ({ comid := c.comid, unitarea := c.unitarea,
             geom := Option.some c.geom, islake := 0 } : CatM γ))
    ∧ List.Forall₂ (fun (r : RivIn γ) (o : RivOut γ) =>
        o.comid = r.comid ∧ o.nextDown = r.nextDown
        ∧ o.length = Option.some r.length ∧ o.geom = Option.some r.geom
        ∧ o.islake = 0 ∧ o.inflow = 0 ∧ o.outflow = 0 ∧ o.inoutflow = 0
        ∧ o.unitarea = (dictLookup (cat.map (fun c => (c.comid, c.unitarea)))
            r.comid).getD 0)
      riv (rivTopologyCorrection glen areaF valid riv cat [] [] [] rivDiffMap
        (cat.map (fun c => (c.comid, c.geom)))).1 := by
  rw [rivTopologyCorrection_no_lakes glen areaF valid riv cat rivDiffMap hnd ha]
  refine ⟨rfl, rfl, ?_⟩
  rw [List.forall₂_map_right_iff]
  apply List.forall₂_same.mpr
  intro r _
  exact ⟨rfl, rfl, rfl, rfl, rfl, rfl, rfl, rfl, rfl⟩

/-- C9 counterexample to the spec's "geometries, areas, and lengths are
identical to the input": a one-segment, one-catchment network with zero
lakes, river `unitarea = 5` but catchment `unitarea = 7`, comes back with
river `unitarea = 7`, not 5 — the rewrite overwrites the river area column
from the catchments even when there is nothing to correct. -/
theorem riv_topology_zero_lakes_cex :
    ((rivTopologyCorrection (fun _ : Unit => (1 : Rat)) (fun _ : Unit => (1 : Rat))
        (fun _ : Unit => true)
        [({ comid := 1, nextDown := Option.some (-9999), length := 3,
            unitarea := Option.some 5, uparea := Option.none,
            geom := () } : RivIn Unit)]
        [({ comid := 1, geom := (), unitarea := 7 } : GCat Unit)]
        [] [] [] (fun _ : Int => (Option.none : Option Unit))
        (([({ comid := 1, geom := (), unitarea := 7 } : GCat Unit)]).map
          (fun c => (c.comid, c.geom)))).1.map (fun o => o.unitarea)) = [(7 : Rat)]
    ∧ ¬ ((7 : Rat) = 5) := by
  have h := rivTopologyCorrection_no_lakes (fun _ : Unit => (1 : Rat))
    (fun _ : Unit => (1 : Rat)) (fun _ : Unit => true)
    [({ comid := 1, nextDown := Option.some (-9999), length := 3,
        unitarea := Option.some 5, uparea := Option.none,
        geom := () } : RivIn Unit)]
    [({ comid := 1, geom := (), unitarea := 7 } : GCat Unit)]
    (fun _ : Int => (Option.none : Option Unit)) (by decide) (by decide)
  rw [h]
  exact ⟨rfl, by decide⟩

theorem riv_topology_zero_lakes_correct_witness :
    (([({ comid := 1, geom := (), unitarea := 7 } : GCat Unit)]).map
        (fun c => c.comid)).Nodup
    ∧ (∀ c ∈ [({ comid := 1, geom := (), unitarea := 7 } : GCat Unit)],
        (fun _ : Unit => (1 : Rat)) c.geom ≠ 0)
    ∧ ((rivTopologyCorrection (fun _ : Unit => (1 : Rat)) (fun _ : Unit => (1 : Rat))
        (fun _ : Unit => true)
        [({ comid := 1, nextDown := Option.some 2, length := 3,
            unitarea := Option.some 5, uparea := Option.none,
            geom := () } : RivIn Unit)]
        [({ comid := 1, geom := (), unitarea := 7 } : GCat Unit)]
        [] [] [] (fun _ : Int => (Option.none : Option Unit))
        (([({ comid := 1, geom := (), unitarea := 7 } : GCat Unit)]).map
          (fun c => (c.comid, c.geom)))).2.2 = []
    ∧ (rivTopologyCorrection (fun _ : Unit => (1 : Rat)) (fun _ : Unit => (1 : Rat))
        (fun _ : Unit => true)
        [({ comid := 1, nextDown := Option.some 2, length := 3,
            unitarea := Option.some 5, uparea := Option.none,
            geom := () } : RivIn Unit)]
        [({ comid := 1, geom := (), unitarea := 7 } : GCat Unit)]
        [] [] [] (fun _ : Int => (Option.none : Option Unit))
        (([({ comid := 1, geom := (), unitarea := 7 } : GCat Unit)]).map
          (fun c => (c.comid, c.geom)))).2.1
      = ([({ comid := 1, geom := (), unitarea := 7 } : GCat Unit)]).map (fun c =>
          ({ comid := c.comid, unitarea := c.unitarea,
             geom := Option.some c.geom, islake := 0 } : CatM Unit))
    ∧ List.Forall₂ (fun (r : RivIn Unit) (o : RivOut Unit) =>
        o.comid = r.comid ∧ o.nextDown = r.nextDown
        ∧ o.length = Option.some r.length ∧ o.geom = Option.some r.geom
        ∧ o.islake = 0 ∧ o.inflow = 0 ∧ o.outflow = 0 ∧ o.inoutflow = 0
        ∧ o.unitarea = (dictLookup
            (([({ comid := 1, geom := (), unitarea := 7 } : GCat Unit)]).map
              (fun c => (c.comid, c.unitarea))) r.comid).getD 0)
      [({ comid := 1, nextDown := Option.some 2, length := 3,
          unitarea := Option.some 5, uparea := Option.none,
          geom := () } : RivIn Unit)]
      (rivTopologyCorrection (fun _ : Unit => (1 : Rat)) (fun _ : Unit => (1 : Rat))
        (fun _ : Unit => true)
        [({ comid := 1, nextDown := Option.some 2, length := 3,
            unitarea := Option.some 5, uparea := Option.none,
            geom := () } : RivIn Unit)]
        [({ comid := 1, geom := (), unitarea := 7 } : GCat Unit)]
        [] [] [] (fun _ : Int => (Option.none : Option Unit))
        (([({ comid := 1, geom := (), unitarea := 7 } : GCat Unit)]).map
          (fun c => (c.comid, c.geom)))).1) :=
  ⟨by decide, by decide,
   riv_topology_zero_lakes_correct (fun _ : Unit => (1 : Rat))
     (fun _ : Unit => (1 : Rat)) (fun _ : Unit => true)
     [({ comid := 1, nextDown := Option.some 2, length := 3,
         unitarea := Option.some 5, uparea := Option.none,
         geom := () } : RivIn Unit)]
     [({ comid := 1, geom := (), unitarea := 7 } : GCat Unit)]
     (fun _ : Int => (Option.none : Option Unit)) (by decide) (by decide)⟩


end RiverLakeNetwork
